import Mathlib

/-!
# Record3D stream client: connection lifecycle, reliable reader and runloop

A shallow embedding of `src/Record3DStream.cpp`.

* Bytes are `Fin 256`; a region of memory is a `List Byte` that starts at the
  pointer the C code passes around.
* The usbmuxd transport, the JPEG decoder and the LZFSE decoder are external to
  the file; they are parameters of the embedding (`Externals`).
* Constants and types that are declared in the header (`depthBufferSize_`,
  `sizeof(IntrinsicMatrixCoeffs)`, `DEVICE_PORT`) are fields of `Config`.
* Loops that need not terminate (`ReceiveWholeBuffer`, the runloop) take a
  fuel argument and return `none` when it runs out.
* Calls of callbacks and of external primitives are recorded in a list of
  `Event`s so that they can be counted.
-/

namespace Record3D

/-- One octet of memory or of the wire. -/
abbrev Byte := Fin 256

/-- An address, as far as the embedding needs one: pointers are only compared. -/
abbrev Ptr := Nat

/-- Constants of the build that `Record3DStream.cpp` takes from its header and
from the platform. -/
structure Config where
  /-- The constant `depthBufferSize_`: size in bytes of one decoded depth frame. -/
  depthBufferSize_ : Nat
  /-- The value of `sizeof(IntrinsicMatrixCoeffs)`. -/
  sizeofIntrinsicMatrixCoeffs : Nat
  /-- The constant `DEVICE_PORT`. -/
  DEVICE_PORT : Nat
  /-- Width in bits of `unsigned long` (32 or 64 on the supported platforms). -/
  unsignedLongBits : Nat
  /-- Width in bits of `size_t`. -/
  sizeBits : Nat
  deriving DecidableEq, Repr

/-- The value of `sizeof(PeerTalkHeader)`: four `uint32_t` fields. -/
def sizeofPeerTalkHeader : Nat := 16

/-- The value of `sizeof(Record3DHeader)`: two `uint32_t` fields. -/
def sizeofRecord3DHeader : Nat := 8

/-! ## `NTOHL_` -/

/-- The macro `NTOHL_(n)`. Every operand is first converted to `unsigned long`
(`W` bits); a left shift of an `unsigned long` is reduced modulo `2 ^ W`. -/
def NTOHL_ (W : Nat) (n : Nat) : Nat :=
  ((((n % 2 ^ W) &&& 0xFF) <<< 24) % 2 ^ W) |||
  ((((n % 2 ^ W) &&& 0xFF00) <<< 8) % 2 ^ W) |||
  (((n % 2 ^ W) &&& 0xFF0000) >>> 8) |||
  (((n % 2 ^ W) &&& 0xFF000000) >>> 24)

/-- Value of a `uint32_t` object whose four bytes in memory are the first four
bytes of `m`, on a little-endian host (missing bytes read as zero). -/
def loadU32 (m : List Byte) : Nat :=
  (m.getD 0 0).val + (m.getD 1 0).val * 2 ^ 8 + (m.getD 2 0).val * 2 ^ 16
    + (m.getD 3 0).val * 2 ^ 24

/-- The field `ptHeader.body_size`: bytes 12..15 of the 16-byte `PeerTalkHeader`. -/
def PeerTalkHeader.body_size (ptHeader : List Byte) : Nat :=
  loadU32 (ptHeader.drop 12)

/-- The statement `uint32_t messageBodySize = NTOHL_( ptHeader.body_size );`:
the macro result is converted to `uint32_t`. -/
def messageBodySize (cfg : Config) (ptHeader : List Byte) : Nat :=
  NTOHL_ cfg.unsignedLongBits (PeerTalkHeader.body_size ptHeader) % 2 ^ 32

/-- Conversion of a `size_t` that holds a 32-bit value to `int`. -/
def toInt32 (n : Nat) : Int :=
  if n % 2 ^ 32 < 2 ^ 31 then ((n % 2 ^ 32 : Nat) : Int) else ((n % 2 ^ 32 : Nat) : Int) - 2 ^ 32

/-! ## Memory -/

/-- Store `data` at offset `off` of the region `buf`. A store that runs past the
end of `buf` makes the list longer; whether a store stays inside an object of a
given capacity is stated separately (`RecvCall.landsInside`), and the runloop,
which owns the buffers, ends in `Flow.fault` when a store did not. -/
def writeAt (buf : List Byte) (off : Nat) (data : List Byte) : List Byte :=
  buf.take off ++ data ++ buf.drop (off + data.length)

/-! ## The transport (usbmuxd) -/

/-- What one call of `usbmuxd_recv` does. -/
structure RecvResult (σ : Type) where
  /-- The return code; `0` is success. -/
  ret : Int
  /-- The bytes the call stored at the destination pointer; their number is
  the value the call leaves in `*recv_bytes`. -/
  data : List Byte
  /-- The transport afterwards. -/
  next : σ

/-- The usbmuxd primitives the file calls, over a transport state `σ`. -/
structure Transport (σ : Type) where
  /-- The call `usbmuxd_connect(handle, port)`: the socket number, negative on failure. -/
  usbmuxd_connect : σ → Nat → Nat → Int × σ
  /-- The call `usbmuxd_recv(sfd, data, len, &recv_bytes)`. -/
  usbmuxd_recv : σ → Int → Nat → RecvResult σ

/-- Record of one `usbmuxd_recv` call made by `ReceiveWholeBuffer`. -/
structure RecvCall where
  /-- Offset in the output buffer of the destination pointer of the call. -/
  offset : Nat
  /-- The length asked for (`numRestBytes`). -/
  requested : Nat
  /-- The return code. -/
  ret : Int
  /-- The bytes stored by the call. -/
  data : List Byte
  deriving DecidableEq, Repr

/-- The store made by the call stays inside an output buffer of `capacity` bytes. -/
def RecvCall.landsInside (c : RecvCall) (capacity : Nat) : Prop :=
  c.offset + c.data.length ≤ capacity

instance (c : RecvCall) (capacity : Nat) : Decidable (c.landsInside capacity) := by
  unfold RecvCall.landsInside; infer_instance

/-- Every store made by the calls stays inside an output buffer of `capacity` bytes. -/
def storesInside (calls : List RecvCall) (capacity : Nat) : Bool :=
  calls.all (fun c => decide (c.landsInside capacity))

/-- What `ReceiveWholeBuffer` leaves behind. -/
structure ReceiveOutcome (σ : Type) where
  /-- The return value. -/
  ret : Nat
  /-- The memory at `$outputBuffer` afterwards. -/
  outputBuffer : List Byte
  /-- The transport afterwards. -/
  transport : σ
  /-- The `usbmuxd_recv` calls made, oldest first. -/
  calls : List RecvCall

/-- The `while` loop of `ReceiveWholeBuffer`; `total` is `numTotalReceivedBytes`. -/
def ReceiveWholeBuffer.loop {σ : Type} (t : Transport σ) (socketHandle : Int)
    (numBytesToRead : Nat) :
    Nat → σ → List Byte → Nat → List RecvCall → Option (ReceiveOutcome σ)
  | 0, s, buf, total, calls =>
    if total < numBytesToRead then none else some ⟨total, buf, s, calls⟩
  | fuel + 1, s, buf, total, calls =>
    if total < numBytesToRead then
      let numRestBytes := (numBytesToRead - total) % 2 ^ 32
      let r := t.usbmuxd_recv s socketHandle numRestBytes
      let buf1 := writeAt buf total r.data
      let calls1 := calls ++ [⟨total, numRestBytes, r.ret, r.data⟩]
      if r.ret ≠ 0 then some ⟨total, buf1, r.next, calls1⟩
      else ReceiveWholeBuffer.loop t socketHandle numBytesToRead fuel r.next buf1
        ((total + r.data.length) % 2 ^ 32) calls1
    else some ⟨total, buf, s, calls⟩

/-- The method `Record3DStream::ReceiveWholeBuffer`. `fuel` bounds the number of
`usbmuxd_recv` calls; `outputBuffer` is the memory at `$outputBuffer` before. -/
def ReceiveWholeBuffer {σ : Type} (t : Transport σ) (fuel : Nat) (s : σ)
    (socketHandle : Int) (outputBuffer : List Byte) (numBytesToRead : Nat) :
    Option (ReceiveOutcome σ) :=
  ReceiveWholeBuffer.loop t socketHandle numBytesToRead fuel s outputBuffer 0 []

/-! ## The session object -/

/-- The struct `DeviceInfo`. -/
structure DeviceInfo where
  handle : Nat
  productId : Nat
  udid : String
  deriving DecidableEq, Repr

/-- The fields of a `Record3DStream` object that the file reads or writes. -/
structure Record3DStream where
  /-- The atomic flag `connectionEstablished_`: true is Streaming. -/
  connectionEstablished_ : Bool
  socketHandle_ : Int
  /-- Whether a callback is stored in `onStreamStopped`. -/
  onStreamStopped : Bool
  /-- Whether a callback is stored in `onNewFrame`. -/
  onNewFrame : Bool
  /-- Address of the scratch region allocated in the constructor. -/
  lzfseScratchBuffer_ : Ptr
  /-- Address `depthImageBuffer_.data()`. -/
  depthImageData : Ptr
  depthImageBuffer_ : List Byte
  /-- The RGB frame; its size is fixed by the constructor
  (`FRAME_WIDTH * FRAME_HEIGHT * sizeof(uint8_t) * numRGBChannels`). -/
  RGBImageBuffer_ : List Byte
  intrinsicMatrixCoeffs_ : List Byte
  deriving DecidableEq, Repr

/-- The arguments of one call of `lzfse_decode_buffer`. -/
structure LzfseCall where
  dst_buffer : Ptr
  dst_size : Nat
  /-- The memory at `src_buffer`. -/
  src_buffer : List Byte
  src_size : Nat
  scratch_buffer : Ptr
  deriving DecidableEq, Repr

/-- What one call of `lzfse_decode_buffer` does. -/
structure LzfseResult where
  /-- The return value: the number of bytes the primitive says it produced. -/
  outSize : Nat
  /-- The bytes it stored at the start of the destination. -/
  written : List Byte
  deriving DecidableEq, Repr

/-- Things that can be observed from outside the object. -/
inductive Event where
  /-- A call `usbmuxd_connect(handle, port)`. -/
  | socketOpen (handle port : Nat)
  /-- A thread running `StreamProcessingRunloop` was created. -/
  | runloopStarted
  /-- The call `onStreamStopped()`. -/
  | streamStopped
  /-- The runloop called `ReceiveWholeBuffer` for the PeerTalk header and got `received`. -/
  | envelopeRead (received : Nat)
  /-- The runloop called `ReceiveWholeBuffer` for `requested` body bytes and got `received`. -/
  | bodyRead (requested received : Nat)
  /-- The call `stbi_load_from_memory(rawMessageBuffer.data() + offset, len, ...)`. -/
  | rgbDecode (offset : Nat) (len : Int)
  /-- The call `DecompressDepthBuffer(rawMessageBuffer.data() + offset, size, ...)`;
  `ok` is false when it returned `nullptr`. -/
  | depthDecode (offset size : Nat) (ok : Bool)
  /-- The call `onNewFrame(RGBImageBuffer_, depthImageBuffer_, ..., intrinsicMatrixCoeffs_)`. -/
  | newFrame (rgb depth intrinsics : List Byte)
  deriving DecidableEq, Repr

/-- The external primitives. -/
structure Externals (σ : Type) where
  transport : Transport σ
  /-- The call `stbi_load_from_memory(buffer, len, ..., STBI_rgb)`: the memory at
  `buffer` and `len`; the decoded pixels, or `none` for `NULL`. -/
  stbi_load_from_memory : List Byte → Int → Option (List Byte)
  lzfse_decode_buffer : LzfseCall → LzfseResult

/-! ## The public part -/

/-- What `ConnectToDevice` leaves behind. -/
structure ConnectResult (σ : Type) where
  ret : Bool
  self : Record3DStream
  transport : σ
  events : List Event

/-- The method `Record3DStream::ConnectToDevice`. -/
def ConnectToDevice {σ : Type} (t : Transport σ) (cfg : Config) (self : Record3DStream)
    (s : σ) (device : DeviceInfo) : ConnectResult σ :=
  if self.connectionEstablished_ then ⟨false, self, s, []⟩
  else
    let r := t.usbmuxd_connect s device.handle cfg.DEVICE_PORT
    let socketNo := r.1
    if socketNo < 0 then ⟨false, self, r.2, [Event.socketOpen device.handle cfg.DEVICE_PORT]⟩
    else
      ⟨true, { self with connectionEstablished_ := true, socketHandle_ := socketNo }, r.2,
        [Event.socketOpen device.handle cfg.DEVICE_PORT, Event.runloopStarted]⟩

/-- The method `Record3DStream::Disconnect`. -/
def Disconnect (self : Record3DStream) : Record3DStream × List Event :=
  let self1 := { self with connectionEstablished_ := false }
  (self1, if self1.onStreamStopped then [Event.streamStopped] else [])

/-! ## The private part -/

/-- What `DecompressDepthBuffer` leaves behind. -/
structure DecompressOutcome where
  /-- The returned pointer; `none` is `nullptr`. -/
  ret : Option Ptr
  /-- The memory at `$destinationBuffer` afterwards. -/
  destination : List Byte
  /-- The call of the native primitive that was made. -/
  call : LzfseCall
  deriving DecidableEq, Repr

/-- The method `Record3DStream::DecompressDepthBuffer`. `destination` is the
memory at `$destinationBuffer` before the call. -/
def DecompressDepthBuffer (lzfse_decode_buffer : LzfseCall → LzfseResult) (cfg : Config)
    (self : Record3DStream) (compressedDepthBuffer : List Byte)
    (compressedDepthBufferSize : Nat) (destinationBuffer : Ptr) (destination : List Byte) :
    DecompressOutcome :=
  let call : LzfseCall :=
    ⟨destinationBuffer, cfg.depthBufferSize_, compressedDepthBuffer,
      compressedDepthBufferSize, self.lzfseScratchBuffer_⟩
  let r := lzfse_decode_buffer call
  let destination1 := writeAt destination 0 r.written
  if r.outSize ≠ cfg.depthBufferSize_ then ⟨none, destination1, call⟩
  else ⟨some destinationBuffer, destination1, call⟩

/-- How one pass through the body of the runloop ends. -/
inductive Flow where
  /-- The end of the body was reached: the loop condition is tested again. -/
  | next
  /-- A `break`. -/
  | exit
  /-- The behaviour of the C++ code is undefined from here on: a `usbmuxd_recv`
  call stored bytes past the end of `ptHeader` or of `rawMessageBuffer`, or the
  `memcpy` from the decoder's result read from `NULL` or past the end of the
  decoder's allocation. -/
  | fault
  deriving DecidableEq, Repr

/-- The variables of the runloop. -/
structure LoopState (σ : Type) where
  self : Record3DStream
  transport : σ
  rawMessageBuffer : List Byte
  events : List Event

/-- Offset of the RGB segment in the body: after the two fixed records. -/
def rgbOffset (cfg : Config) : Nat :=
  (sizeofRecord3DHeader + cfg.sizeofIntrinsicMatrixCoeffs) % 2 ^ cfg.sizeBits

/-- Offset of the depth segment in the body: `offset += currSize` after the RGB step. -/
def depthOffset (cfg : Config) (rgbSize : Nat) : Nat :=
  (rgbOffset cfg + rgbSize) % 2 ^ cfg.sizeBits

/-- Step 3 of the loop body (parse the body), entered once both reads were complete. -/
def parseBody {σ : Type} (E : Externals σ) (cfg : Config) (st : LoopState σ) :
    Flow × LoopState σ :=
  let raw := st.rawMessageBuffer
  -- 3.1 Read the header of Record3D
  let rgbSize := loadU32 raw
  let depthSize := loadU32 (raw.drop 4)
  -- 3.2 Read intrinsic matrix coefficients
  let intrinsics := (raw.drop sizeofRecord3DHeader).take cfg.sizeofIntrinsicMatrixCoeffs
  let self1 := { st.self with intrinsicMatrixCoeffs_ := intrinsics }
  -- 3.3 Read and decode the RGB JPEG frame
  let offset := rgbOffset cfg
  let ev1 := st.events ++ [Event.rgbDecode offset (toInt32 rgbSize)]
  match E.stbi_load_from_memory (raw.drop offset) (toInt32 rgbSize) with
  | none => (Flow.fault, { st with self := self1, events := ev1 })
  | some rgbPixels =>
    if rgbPixels.length < self1.RGBImageBuffer_.length then
      (Flow.fault, { st with self := self1, events := ev1 })
    else
      let self2 := { self1 with RGBImageBuffer_ := rgbPixels.take self1.RGBImageBuffer_.length }
      -- 3.4 Read and decompress the depth frame
      let offset2 := depthOffset cfg rgbSize
      let d := DecompressDepthBuffer E.lzfse_decode_buffer cfg self2 (raw.drop offset2)
        depthSize self2.depthImageData self2.depthImageBuffer_
      let self3 := { self2 with depthImageBuffer_ := d.destination }
      let ev2 := ev1 ++ [Event.depthDecode offset2 depthSize d.ret.isSome]
      let ev3 := if self3.onNewFrame then
          ev2 ++ [Event.newFrame self3.RGBImageBuffer_ self3.depthImageBuffer_
            self3.intrinsicMatrixCoeffs_]
        else ev2
      (Flow.next, { st with self := self3, events := ev3 })

/-- One pass through the body of the `while` loop of `StreamProcessingRunloop`.
`ptHeader` is a fresh local variable whose bytes are indeterminate before the
read; they are taken to be zero (after a short read its value is not used).
`ReceiveWholeBuffer` is given a pointer and no capacity: when one of its
`usbmuxd_recv` calls stored past the end of the 16-byte `ptHeader` or of
`rawMessageBuffer`, the pass ends in `Flow.fault`. -/
def runloopBody {σ : Type} (E : Externals σ) (cfg : Config) (rfuel : Nat)
    (st : LoopState σ) : Option (Flow × LoopState σ) :=
  -- 1. Receive the PeerTalk header
  match ReceiveWholeBuffer E.transport rfuel st.transport st.self.socketHandle_
      (List.replicate sizeofPeerTalkHeader 0) sizeofPeerTalkHeader with
  | none => none
  | some r1 =>
    let size := messageBodySize cfg r1.outputBuffer
    let ev1 := st.events ++ [Event.envelopeRead r1.ret]
    if storesInside r1.calls sizeofPeerTalkHeader = false then
      some (Flow.fault, { st with transport := r1.transport, events := ev1 })
    else if r1.ret ≠ sizeofPeerTalkHeader then
      some (Flow.exit, { st with transport := r1.transport, events := ev1 })
    else
      -- 2. Receive the whole body
      match ReceiveWholeBuffer E.transport rfuel r1.transport st.self.socketHandle_
          st.rawMessageBuffer size with
      | none => none
      | some r2 =>
        let ev2 := ev1 ++ [Event.bodyRead size r2.ret]
        let st2 : LoopState σ :=
          { st with transport := r2.transport, rawMessageBuffer := r2.outputBuffer,
                    events := ev2 }
        if storesInside r2.calls st.rawMessageBuffer.length = false then some (Flow.fault, st2)
        else if r2.ret ≠ size then some (Flow.exit, st2)
        else some (parseBody E cfg st2)

/-- The `while ( connectionEstablished_.load() )` loop. The flag is only written
by `ConnectToDevice` and `Disconnect`; the loop itself calls neither, so here
(no call from another thread) it keeps the value it has on entry. -/
def StreamProcessingRunloop.loop {σ : Type} (E : Externals σ) (cfg : Config) (rfuel : Nat) :
    Nat → LoopState σ → Option (Flow × LoopState σ)
  | 0, st => if st.self.connectionEstablished_ then none else some (Flow.exit, st)
  | fuel + 1, st =>
    if st.self.connectionEstablished_ then
      match runloopBody E cfg rfuel st with
      | none => none
      | some (Flow.next, st1) => StreamProcessingRunloop.loop E cfg rfuel fuel st1
      | some (flow, st1) => some (flow, st1)
    else some (Flow.exit, st)

/-- How a run of `StreamProcessingRunloop` ends. -/
inductive Outcome where
  /-- The loop was left and `Disconnect()` was called. -/
  | finished
  /-- The run reached undefined behaviour (see `Flow.fault`). -/
  | undefinedBehaviour
  deriving DecidableEq, Repr

/-- What a run of `StreamProcessingRunloop` leaves behind. -/
structure RunloopResult (σ : Type) where
  outcome : Outcome
  self : Record3DStream
  transport : σ
  events : List Event

/-- The method `Record3DStream::StreamProcessingRunloop`. `fuel` bounds the number
of passes through the loop, `rfuel` the `usbmuxd_recv` calls of one read. -/
def StreamProcessingRunloop {σ : Type} (E : Externals σ) (cfg : Config) (fuel rfuel : Nat)
    (self : Record3DStream) (s : σ) : Option (RunloopResult σ) :=
  match StreamProcessingRunloop.loop E cfg rfuel fuel
      ⟨self, s, List.replicate (cfg.depthBufferSize_ * 2) 0, []⟩ with
  | none => none
  | some (Flow.fault, st) => some ⟨Outcome.undefinedBehaviour, st.self, st.transport, st.events⟩
  | some (_, st) =>
    let d := Disconnect st.self
    some ⟨Outcome.finished, d.1, st.transport, st.events ++ d.2⟩


/-! ## Vocabulary of the statements -/

/-- The bytes stored by a sequence of `usbmuxd_recv` calls, in call order. -/
def deliveredBytes : List RecvCall → List Byte
  | [] => []
  | c :: cs => c.data ++ deliveredBytes cs

/-- Each call stores its bytes at the offset equal to `start` plus the number
of bytes stored by the calls before it. -/
def contiguousFrom : Nat → List RecvCall → Bool
  | _, [] => true
  | start, c :: cs => c.offset == start && contiguousFrom (start + c.data.length) cs

/-- From state `s`, the transport hands the bytes `bytes` to a reader that keeps
asking for what is still missing: every call succeeds and yields a non-empty
chunk, the chunks make up `bytes`, and the transport ends in state `s1`. -/
inductive Delivers {σ : Type} (t : Transport σ) (h : Int) : σ → List Byte → σ → Prop
  | done (s : σ) : Delivers t h s [] s
  | chunk (s s1 : σ) (c rest : List Byte) (hc : c ≠ [])
      (hret : (t.usbmuxd_recv s h (c ++ rest).length).ret = 0)
      (hdata : (t.usbmuxd_recv s h (c ++ rest).length).data = c)
      (hrest : Delivers t h (t.usbmuxd_recv s h (c ++ rest).length).next rest s1) :
      Delivers t h s (c ++ rest) s1

/-- The calls are the answers of the transport, from state `s` on, to a reader
that holds `total` of the `N` bytes it wants and keeps asking for what is
missing: each call has its destination at offset `total`, asks for `N - total`
bytes and records what `usbmuxd_recv` returned for that request; the next call
meets the transport as this one left it, with the bytes of this one counted.
The last call leaves the transport in state `s1`. -/
inductive Trace {σ : Type} (t : Transport σ) (h : Int) (N : Nat) :
    σ → Nat → List RecvCall → σ → Prop
  | nil (s : σ) (total : Nat) : Trace t h N s total [] s
  | cons (s s1 : σ) (total : Nat) (cs : List RecvCall) (hlt : total < N)
      (hrest : Trace t h N (t.usbmuxd_recv s h (N - total)).next
        (total + (t.usbmuxd_recv s h (N - total)).data.length) cs s1) :
      Trace t h N s total
        (⟨total, N - total, (t.usbmuxd_recv s h (N - total)).ret,
          (t.usbmuxd_recv s h (N - total)).data⟩ :: cs) s1

/-- From state `s`, a reader that wants `n` bytes gets `K` bytes in total over
successful calls (each yielding at least one byte and fewer than what is still
missing) and then a call that reports a non-zero code; nothing is assumed about
the bytes or the count of the failing call. -/
inductive Truncates {σ : Type} (t : Transport σ) (h : Int) : σ → Nat → Nat → Prop
  | fail (s : σ) (n : Nat) (hn : 0 < n) (hret : (t.usbmuxd_recv s h n).ret ≠ 0) :
      Truncates t h s n 0
  | chunk (s : σ) (n K : Nat) (hret : (t.usbmuxd_recv s h n).ret = 0)
      (h1 : 1 ≤ (t.usbmuxd_recv s h n).data.length)
      (h2 : (t.usbmuxd_recv s h n).data.length < n)
      (hrest : Truncates t h (t.usbmuxd_recv s h n).next
        (n - (t.usbmuxd_recv s h n).data.length) K) :
      Truncates t h s n ((t.usbmuxd_recv s h n).data.length + K)

/-- One protocol message on the wire. -/
structure Message where
  /-- The 16-byte PeerTalk header. -/
  envelope : List Byte
  body : List Byte
  deriving DecidableEq, Repr

/-- From state `s` the transport carries the complete messages `msgs` one after
the other: for each a full envelope and then exactly `body_size` body bytes. -/
inductive Carries {σ : Type} (t : Transport σ) (cfg : Config) (h : Int) :
    σ → List Message → σ → Prop
  | nil (s : σ) : Carries t cfg h s [] s
  | cons (s s1 s2 s3 : σ) (m : Message) (rest : List Message)
      (henv : m.envelope.length = sizeofPeerTalkHeader)
      (hsize : m.body.length = messageBodySize cfg m.envelope)
      (hd1 : Delivers t h s m.envelope s1) (hd2 : Delivers t h s1 m.body s2)
      (hrest : Carries t cfg h s2 rest s3) : Carries t cfg h s (m :: rest) s3

/-- The next message is cut off inside its envelope. -/
def TruncatedEnvelope {σ : Type} (t : Transport σ) (h : Int) (s : σ) : Prop :=
  ∃ K, Truncates t h s sizeofPeerTalkHeader K

/-- The next message has a full envelope, announcing a body that fits the raw
buffer, and is cut off before `body_size` body bytes were delivered. -/
def TruncatedBody {σ : Type} (t : Transport σ) (cfg : Config) (h : Int) (s : σ) : Prop :=
  ∃ envelope s1 K, envelope.length = sizeofPeerTalkHeader ∧ Delivers t h s envelope s1 ∧
    messageBodySize cfg envelope ≤ cfg.depthBufferSize_ * 2 ∧
    Truncates t h s1 (messageBodySize cfg envelope) K

/-- Both codecs succeed on each of the messages `msgs`, whose bodies are received
one after the other at the start of a raw buffer holding `raw` before the first:
for each body the RGB decoder, called as step 3.3 calls it, returns at least a
frame of pixels, and the LZFSE primitive, called as step 3.4 calls it, returns
`depthBufferSize_`. -/
def CodecsSucceed {σ : Type} (E : Externals σ) (cfg : Config) (self : Record3DStream) :
    List Byte → List Message → Prop
  | _, [] => True
  | raw, m :: rest =>
    (∃ px, E.stbi_load_from_memory ((writeAt raw 0 m.body).drop (rgbOffset cfg))
        (toInt32 (loadU32 (writeAt raw 0 m.body))) = some px ∧
      self.RGBImageBuffer_.length ≤ px.length) ∧
    (E.lzfse_decode_buffer
      ⟨self.depthImageData, cfg.depthBufferSize_,
        (writeAt raw 0 m.body).drop (depthOffset cfg (loadU32 (writeAt raw 0 m.body))),
        loadU32 ((writeAt raw 0 m.body).drop 4), self.lzfseScratchBuffer_⟩).outSize
      = cfg.depthBufferSize_ ∧
    CodecsSucceed E cfg self (writeAt raw 0 m.body) rest

/-- Is the event a call of `onNewFrame`? -/
def Event.isNewFrame : Event → Bool
  | Event.newFrame _ _ _ => true
  | _ => false

/-- Is the event a call of `onStreamStopped`? -/
def Event.isStreamStopped : Event → Bool
  | Event.streamStopped => true
  | _ => false

/-- Is the event a body read? -/
def Event.isBodyRead : Event → Bool
  | Event.bodyRead _ _ => true
  | _ => false

/-- Number of `onNewFrame` calls. -/
def countNewFrame (events : List Event) : Nat := events.countP Event.isNewFrame

/-- Number of `onStreamStopped` calls. -/
def countStreamStopped (events : List Event) : Nat := events.countP Event.isStreamStopped

/-- Number of body reads. -/
def countBodyRead (events : List Event) : Nat := events.countP Event.isBodyRead

/-- The call of the native primitive that step 3.4 makes for the body held in
`st.rawMessageBuffer`. -/
def depthCall {σ : Type} (cfg : Config) (st : LoopState σ) : LzfseCall :=
  ⟨st.self.depthImageData, cfg.depthBufferSize_,
    st.rawMessageBuffer.drop (depthOffset cfg (loadU32 st.rawMessageBuffer)),
    loadU32 (st.rawMessageBuffer.drop 4), st.self.lzfseScratchBuffer_⟩

/-- The protocol invariant of a body: the two fixed records and the two
segments announced by the Record3D header add up to `body_size`. -/
def bodyInvariant (cfg : Config) (body : List Byte) : Prop :=
  sizeofRecord3DHeader + cfg.sizeofIntrinsicMatrixCoeffs + loadU32 body + loadU32 (body.drop 4)
    = body.length

instance (cfg : Config) (body : List Byte) : Decidable (bodyInvariant cfg body) := by
  unfold bodyInvariant; infer_instance

/-! ## Concrete inputs -/

namespace Demo

/-- A byte stream: a call yields the next `min len chunk` pending bytes, and
fails with code `-1` once nothing is pending (the peer closed). -/
def streamTransport (chunk : Nat) : Transport (List Byte) where
  usbmuxd_connect := fun s _ _ => (5, s)
  usbmuxd_recv := fun s _ len =>
    if s.isEmpty then ⟨-1, [], []⟩ else ⟨0, s.take (min len chunk), s.drop (min len chunk)⟩

/-- A transport that never fails: call number `k` yields `min len 2` bytes of value `k`. -/
def patternTransport : Transport Nat where
  usbmuxd_connect := fun s _ _ => (5, s)
  usbmuxd_recv := fun s _ len => ⟨0, List.replicate (min len 2) (Fin.ofNat s), s + 1⟩

/-- A small build: 16-byte depth frames, 4 bytes of intrinsics, 64-bit `unsigned long`. -/
def config : Config := ⟨16, 4, 1234, 64, 64⟩

/-- A build with a 4-byte depth frame, so the raw buffer has 8 bytes. -/
def tinyConfig : Config := ⟨4, 4, 1234, 64, 64⟩

/-- A JPEG decoder that always yields the three bytes of one pixel. -/
def onePixel : List Byte → Int → Option (List Byte) := fun _ _ => some [1, 2, 3]

/-- Externals whose LZFSE primitive stores one byte and returns 0 (invalid input). -/
def failingDepth (chunk : Nat) : Externals (List Byte) :=
  ⟨streamTransport chunk, onePixel, fun _ => ⟨0, [9]⟩⟩

/-- Externals whose LZFSE primitive fills the whole destination. -/
def workingDepth (chunk : Nat) : Externals (List Byte) :=
  ⟨streamTransport chunk, onePixel, fun c => ⟨c.dst_size, List.replicate c.dst_size 7⟩⟩

/-- A session in state Streaming on socket 5 with both callbacks registered. -/
def session : Record3DStream :=
  ⟨true, 5, true, true, 100, 200, List.replicate 16 0, List.replicate 3 0, List.replicate 4 0⟩

/-- The envelope announcing a 16-byte body. -/
def envelope16 : List Byte := [0, 0, 0, 0, 0, 0, 0, 0, 0, 0, 0, 0, 0, 0, 0, 16]

/-- A body that satisfies the invariant: `rgbSize = 2`, `depthSize = 2`, 4 bytes
of intrinsics, 2 + 2 bytes of segments. -/
def body16 : List Byte := [2, 0, 0, 0, 2, 0, 0, 0, 7, 7, 7, 7, 1, 1, 2, 2]

/-- A 16-byte body whose header announces `rgbSize = 1` and `depthSize = 1`:
8 + 4 + 1 + 1 = 14, not 16. -/
def badBody16 : List Byte := [1, 0, 0, 0, 1, 0, 0, 0, 7, 7, 7, 7, 1, 2, 3, 4]

/-- One complete message. -/
def message : Message := ⟨envelope16, body16⟩

end Demo


/-! ## Lemmas -/

theorem writeAt_length (buf : List Byte) (off : Nat) (data : List Byte) (h : off ≤ buf.length) :
    off + data.length ≤ (writeAt buf off data).length := by
  simp [writeAt, List.length_take, Nat.min_eq_left h]

theorem writeAt_take (buf : List Byte) (off : Nat) (data : List Byte) (h : off ≤ buf.length) :
    (writeAt buf off data).take (off + data.length) = buf.take off ++ data := by
  have hl : (buf.take off ++ data).length = off + data.length := by
    simp [List.length_take, Nat.min_eq_left h]
  unfold writeAt
  rw [← hl, List.take_left]

theorem writeAt_writeAt (buf : List Byte) (off : Nat) (c r : List Byte) (h : off ≤ buf.length) :
    writeAt (writeAt buf off c) (off + c.length) r = writeAt buf off (c ++ r) := by
  have hl : (buf.take off ++ c).length = off + c.length := by
    simp [List.length_take, Nat.min_eq_left h]
  have e1 := writeAt_take buf off c h
  have e0 : writeAt (writeAt buf off c) (off + c.length) r
      = (writeAt buf off c).take (off + c.length) ++ r
        ++ (writeAt buf off c).drop (off + c.length + r.length) := rfl
  rw [e0, e1]
  have e2 : List.drop (off + c.length + r.length) (writeAt buf off c)
      = List.drop (off + (c ++ r).length) buf := by
    have e3 : writeAt buf off c = (buf.take off ++ c) ++ buf.drop (off + c.length) := rfl
    have e4 : off + c.length + r.length = (buf.take off ++ c).length + r.length := by rw [hl]
    rw [e3, e4, List.drop_append, List.drop_drop]
    congr 1
    simp; omega
  rw [e2]
  simp [writeAt]

theorem writeAt_nil (buf : List Byte) (off : Nat) : writeAt buf off [] = buf := by
  simp [writeAt]

theorem writeAt_length_eq (buf : List Byte) (off : Nat) (data : List Byte)
    (h : off + data.length ≤ buf.length) : (writeAt buf off data).length = buf.length := by
  simp [writeAt, List.length_take, List.length_drop]
  omega

theorem writeAt_drop (buf : List Byte) (off : Nat) (data : List Byte) (h : off ≤ buf.length) :
    (writeAt buf off data).drop (off + data.length) = buf.drop (off + data.length) := by
  have hl : (buf.take off ++ data).length = off + data.length := by
    simp [List.length_take, Nat.min_eq_left h]
  unfold writeAt
  rw [← hl, List.drop_left]

theorem storesInside_of_le (calls : List RecvCall) (N capacity : Nat) (hN : N ≤ capacity)
    (h : ∀ c ∈ calls, c.offset + c.data.length ≤ N) : storesInside calls capacity = true := by
  unfold storesInside
  rw [List.all_eq_true]
  intro c hc
  have := h c hc
  simp only [RecvCall.landsInside, decide_eq_true_eq]
  omega

theorem storesInside_false (calls : List RecvCall) (capacity : Nat) (c : RecvCall)
    (hc : c ∈ calls) (h : ¬ c.landsInside capacity) : storesInside calls capacity = false := by
  unfold storesInside
  rw [List.all_eq_false]
  exact ⟨c, hc, by simpa using h⟩

section
variable {σ : Type} (t : Transport σ) (h : Int) (N : Nat)

theorem loop_done (fuel : Nat) (s : σ) (buf : List Byte) (total : Nat) (calls : List RecvCall)
    (hge : ¬ total < N) :
    ReceiveWholeBuffer.loop t h N fuel s buf total calls = some ⟨total, buf, s, calls⟩ := by
  cases fuel <;> simp [ReceiveWholeBuffer.loop, hge]

theorem loop_step (fuel : Nat) (s : σ) (buf : List Byte) (total : Nat) (calls : List RecvCall)
    (hlt : total < N) (hN : N < 2 ^ 32) :
    ReceiveWholeBuffer.loop t h N (fuel + 1) s buf total calls =
      if (t.usbmuxd_recv s h (N - total)).ret ≠ 0 then
        some ⟨total, writeAt buf total (t.usbmuxd_recv s h (N - total)).data,
          (t.usbmuxd_recv s h (N - total)).next,
          calls ++ [⟨total, N - total, (t.usbmuxd_recv s h (N - total)).ret,
            (t.usbmuxd_recv s h (N - total)).data⟩]⟩
      else ReceiveWholeBuffer.loop t h N fuel (t.usbmuxd_recv s h (N - total)).next
        (writeAt buf total (t.usbmuxd_recv s h (N - total)).data)
        ((total + (t.usbmuxd_recv s h (N - total)).data.length) % 2 ^ 32)
        (calls ++ [⟨total, N - total, (t.usbmuxd_recv s h (N - total)).ret,
            (t.usbmuxd_recv s h (N - total)).data⟩]) := by
  have e : (N - total) % 2 ^ 32 = N - total := Nat.mod_eq_of_lt (by omega)
  simp only [ReceiveWholeBuffer.loop, hlt, if_true, e]

theorem Trace.contiguous {s s1 : σ} {total : Nat} {cs : List RecvCall}
    (ht : Trace t h N s total cs s1) : contiguousFrom total cs = true := by
  induction ht with
  | nil s total => rfl
  | cons s s1 total cs hlt hrest ih => simp [contiguousFrom, ih]

theorem loop_good_trace (hN : N < 2 ^ 32)
    (hgood : ∀ s n, 0 < n → (t.usbmuxd_recv s h n).ret = 0 ∧
      1 ≤ (t.usbmuxd_recv s h n).data.length ∧ (t.usbmuxd_recv s h n).data.length ≤ n) :
    ∀ (fuel : Nat) (s : σ) (buf : List Byte) (total : Nat) (calls : List RecvCall),
      total ≤ N → N - total ≤ fuel → total ≤ buf.length →
      ∃ out new, ReceiveWholeBuffer.loop t h N fuel s buf total calls = some out ∧
        out.ret = N ∧ out.calls = calls ++ new ∧
        Trace t h N s total new out.transport ∧
        total + (deliveredBytes new).length = N ∧
        out.outputBuffer = writeAt buf total (deliveredBytes new) ∧
        (∀ c ∈ new, c.ret = 0 ∧ c.offset + c.data.length ≤ N) := by
  intro fuel
  induction fuel with
  | zero =>
    intro s buf total calls hle hfuel hbl
    have : total = N := by omega
    subst this
    exact ⟨_, [], loop_done t h total 0 s buf total calls (by omega), rfl, by simp,
      Trace.nil s total, by simp [deliveredBytes], by simp [deliveredBytes, writeAt_nil],
      by simp⟩
  | succ fuel ih =>
    intro s buf total calls hle hfuel hbl
    by_cases hlt : total < N
    · obtain ⟨hret, h1, h2⟩ := hgood s (N - total) (by omega)
      rw [loop_step t h N fuel s buf total calls hlt hN]
      simp only [hret, ne_eq, not_true_eq_false, if_false]
      rw [Nat.mod_eq_of_lt (by omega)]
      obtain ⟨out, new, hrun, hr, hcalls, htr, hlen, hbuf, hall⟩ :=
        ih (t.usbmuxd_recv s h (N - total)).next
          (writeAt buf total (t.usbmuxd_recv s h (N - total)).data)
          (total + (t.usbmuxd_recv s h (N - total)).data.length)
          (calls ++ [⟨total, N - total, 0, (t.usbmuxd_recv s h (N - total)).data⟩])
          (by omega) (by omega) (writeAt_length buf total _ hbl)
      refine ⟨out, ⟨total, N - total, (t.usbmuxd_recv s h (N - total)).ret,
        (t.usbmuxd_recv s h (N - total)).data⟩ :: new, hrun, hr, ?_, ?_, ?_, ?_, ?_⟩
      · rw [hcalls, hret]; simp
      · exact Trace.cons s out.transport total new hlt htr
      · simp only [deliveredBytes, List.length_append]; omega
      · rw [hbuf, writeAt_writeAt buf total _ _ hbl]; rfl
      · intro c hc
        rcases List.mem_cons.mp hc with hc | hc
        · subst hc; exact ⟨hret, by simp; omega⟩
        · exact hall c hc
    · have : total = N := by omega
      subst this
      exact ⟨_, [], loop_done t h total _ s buf total calls (by omega), rfl, by simp,
        Trace.nil s total, by simp [deliveredBytes], by simp [deliveredBytes, writeAt_nil],
        by simp⟩

theorem loop_delivers (hN : N < 2 ^ 32) {s s1 : σ} {bytes : List Byte}
    (hd : Delivers t h s bytes s1) :
    ∀ (fuel : Nat) (buf : List Byte) (total : Nat) (calls : List RecvCall),
      total + bytes.length = N → bytes.length ≤ fuel → total ≤ buf.length →
      ∃ cs, ReceiveWholeBuffer.loop t h N fuel s buf total calls
          = some ⟨N, writeAt buf total bytes, s1, cs⟩ ∧
        (∀ c ∈ calls, c ∈ cs) ∧
        (∀ c ∈ cs, c ∈ calls ∨ c.offset + c.data.length ≤ N) ∧
        (0 < bytes.length → ∃ c ∈ cs, c.ret = 0 ∧ c.offset + c.data.length = N) := by
  induction hd with
  | done s =>
    intro fuel buf total calls hlen _ _
    simp at hlen
    subst hlen
    exact ⟨calls, by rw [loop_done t h total fuel s buf total calls (by omega), writeAt_nil],
      fun c hc => hc, fun c hc => Or.inl hc, fun h0 => absurd h0 (by simp)⟩
  | chunk s s1 c rest hc hret hdata hrest ih =>
    intro fuel buf total calls hlen hfuel hbl
    have hcl : 0 < c.length := List.length_pos.mpr hc
    have hreq : N - total = (c ++ rest).length := by omega
    simp only [List.length_append] at hlen hfuel
    obtain ⟨fuel, rfl⟩ : ∃ f, fuel = f + 1 := ⟨fuel - 1, by omega⟩
    rw [loop_step t h N fuel s buf total calls (by omega) hN, hreq]
    simp only [hret, ne_eq, not_true_eq_false, if_false, hdata]
    rw [Nat.mod_eq_of_lt (by omega)]
    obtain ⟨cs, hcs, hsub, hin, hlast⟩ := ih fuel (writeAt buf total c) (total + c.length)
      (calls ++ [⟨total, (c ++ rest).length, 0, c⟩]) (by omega) (by omega)
      (writeAt_length buf total c hbl)
    refine ⟨cs, by rw [hcs, writeAt_writeAt buf total c rest hbl],
      fun x hx => hsub x (List.mem_append_left _ hx), ?_, fun _ => ?_⟩
    · intro x hx
      rcases hin x hx with hx1 | hx1
      · rcases List.mem_append.mp hx1 with hx2 | hx2
        · exact Or.inl hx2
        · simp at hx2; subst hx2; right; simp; omega
      · exact Or.inr hx1
    · by_cases hr : 0 < rest.length
      · exact hlast hr
      · have hr0 : rest.length = 0 := by omega
        exact ⟨⟨total, (c ++ rest).length, 0, c⟩,
          hsub _ (List.mem_append_right _ (List.mem_singleton_self _)), rfl, by simp; omega⟩

theorem Truncates.lt {s : σ} {n K : Nat} (ht : Truncates t h s n K) : K < n := by
  induction ht with
  | fail s n hn hret => exact hn
  | chunk s n K hret h1 h2 hrest ih => omega

theorem Delivers.not_truncates {s s1 : σ} {bytes : List Byte} (hd : Delivers t h s bytes s1) :
    ∀ K n, n = bytes.length → ¬ Truncates t h s n K := by
  induction hd with
  | done s =>
    intro K n hn ht
    have := Truncates.lt t h ht
    simp at hn
    omega
  | chunk s s1 c rest hc hret hdata hrest ih =>
    intro K n hn ht
    cases ht with
    | fail _ _ hn2 hret2 =>
      rw [hn] at hret2
      exact hret2 hret
    | chunk _ _ K2 hret2 h1 h2 hrest2 =>
      rw [hn] at hrest2
      rw [hdata] at hrest2
      exact ih K2 _ (by simp) hrest2

theorem loop_truncates (hN : N < 2 ^ 32) {s : σ} {n K : Nat} (ht : Truncates t h s n K) :
    ∀ (fuel : Nat) (buf : List Byte) (total : Nat) (calls : List RecvCall),
      total + n = N → n ≤ fuel →
      ∃ out, ReceiveWholeBuffer.loop t h N fuel s buf total calls = some out ∧
        out.ret = total + K ∧ ∃ c ∈ out.calls, c.ret ≠ 0 := by
  induction ht with
  | fail s n hn hret =>
    intro fuel buf total calls hlen hfuel
    obtain ⟨fuel, rfl⟩ : ∃ f, fuel = f + 1 := ⟨fuel - 1, by omega⟩
    have hreq : N - total = n := by omega
    rw [loop_step t h N fuel s buf total calls (by omega) hN, hreq]
    simp only [ne_eq, hret, not_false_eq_true, if_true]
    exact ⟨_, rfl, rfl, ⟨_, List.mem_append_right _ (List.mem_singleton_self _), hret⟩⟩
  | chunk s n K hret h1 h2 hrest ih =>
    intro fuel buf total calls hlen hfuel
    obtain ⟨fuel, rfl⟩ : ∃ f, fuel = f + 1 := ⟨fuel - 1, by omega⟩
    have hreq : N - total = n := by omega
    rw [loop_step t h N fuel s buf total calls (by omega) hN, hreq]
    simp only [hret, ne_eq, not_true_eq_false, if_false]
    rw [Nat.mod_eq_of_lt (by omega)]
    obtain ⟨out, hout, hr, hc⟩ := ih fuel (writeAt buf total (t.usbmuxd_recv s h n).data)
      (total + (t.usbmuxd_recv s h n).data.length)
      (calls ++ [⟨total, n, 0, (t.usbmuxd_recv s h n).data⟩]) (by omega) (by omega)
    exact ⟨out, hout, by omega, hc⟩

theorem loop_truncates_inside (hN : N < 2 ^ 32)
    (hfail : ∀ s n, (t.usbmuxd_recv s h n).ret ≠ 0 → (t.usbmuxd_recv s h n).data.length ≤ n)
    {s : σ} {n K : Nat} (ht : Truncates t h s n K) :
    ∀ (fuel : Nat) (buf : List Byte) (total : Nat) (calls : List RecvCall)
      (out : ReceiveOutcome σ),
      total + n = N → ReceiveWholeBuffer.loop t h N fuel s buf total calls = some out →
      ∀ c ∈ out.calls, c ∈ calls ∨ c.offset + c.data.length ≤ N := by
  induction ht with
  | fail s n hn hret =>
    intro fuel buf total calls out hlen hrun
    have hreq : N - total = n := by omega
    cases fuel with
    | zero => simp [ReceiveWholeBuffer.loop, show total < N by omega] at hrun
    | succ fuel =>
      rw [loop_step t h N fuel s buf total calls (by omega) hN, hreq] at hrun
      simp only [ne_eq, hret, not_false_eq_true, if_true] at hrun
      cases hrun
      intro c hc
      rcases List.mem_append.mp hc with hc | hc
      · exact Or.inl hc
      · simp at hc; subst hc; right
        have := hfail s n hret
        simp; omega
  | chunk s n K hret h1 h2 hrest ih =>
    intro fuel buf total calls out hlen hrun
    have hreq : N - total = n := by omega
    cases fuel with
    | zero => simp [ReceiveWholeBuffer.loop, show total < N by omega] at hrun
    | succ fuel =>
      rw [loop_step t h N fuel s buf total calls (by omega) hN, hreq] at hrun
      simp only [hret, ne_eq, not_true_eq_false, if_false] at hrun
      rw [Nat.mod_eq_of_lt (by omega)] at hrun
      intro c hc
      rcases ih fuel _ _ _ out (by omega) hrun c hc with hc1 | hc1
      · rcases List.mem_append.mp hc1 with hc2 | hc2
        · exact Or.inl hc2
        · simp at hc2; subst hc2; right; simp; omega
      · exact Or.inr hc1

theorem loop_terminates (hN : N < 2 ^ 32)
    (hstep : ∀ s n, 0 < n → (t.usbmuxd_recv s h n).ret = 0 →
      1 ≤ (t.usbmuxd_recv s h n).data.length ∧ (t.usbmuxd_recv s h n).data.length ≤ n) :
    ∀ (fuel : Nat) (s : σ) (buf : List Byte) (total : Nat) (calls : List RecvCall),
      total ≤ N → N - total ≤ fuel →
      ∃ out, ReceiveWholeBuffer.loop t h N fuel s buf total calls = some out := by
  intro fuel
  induction fuel with
  | zero =>
    intro s buf total calls hle hfuel
    exact ⟨_, loop_done t h N 0 s buf total calls (by omega)⟩
  | succ fuel ih =>
    intro s buf total calls hle hfuel
    by_cases hlt : total < N
    · rw [loop_step t h N fuel s buf total calls hlt hN]
      by_cases hret : (t.usbmuxd_recv s h (N - total)).ret = 0
      · obtain ⟨h1, h2⟩ := hstep s (N - total) (by omega) hret
        simp only [hret, ne_eq, not_true_eq_false, if_false]
        rw [Nat.mod_eq_of_lt (by omega)]
        exact ih _ _ _ _ (by omega) (by omega)
      · simp only [ne_eq, hret, not_false_eq_true, if_true]
        exact ⟨_, rfl⟩
    · exact ⟨_, loop_done t h N _ s buf total calls hlt⟩

theorem loop_ret_iff (hN : N < 2 ^ 32)
    (hwb : ∀ s n, 0 < n → (t.usbmuxd_recv s h n).ret = 0 →
      (t.usbmuxd_recv s h n).data.length ≤ n) :
    ∀ (fuel : Nat) (s : σ) (buf : List Byte) (total : Nat) (calls : List RecvCall)
      (out : ReceiveOutcome σ),
      total ≤ N → (∀ c ∈ calls, c.ret = 0) →
      ReceiveWholeBuffer.loop t h N fuel s buf total calls = some out →
      out.ret ≤ N ∧ (out.ret = N ↔ ∀ c ∈ out.calls, c.ret = 0) := by
  intro fuel
  induction fuel with
  | zero =>
    intro s buf total calls out hle hok hrun
    by_cases hlt : total < N
    · simp [ReceiveWholeBuffer.loop, hlt] at hrun
    · rw [loop_done t h N 0 s buf total calls hlt] at hrun
      cases hrun
      exact ⟨hle, fun _ => hok, fun _ => by simp; omega⟩
  | succ fuel ih =>
    intro s buf total calls out hle hok hrun
    by_cases hlt : total < N
    · rw [loop_step t h N fuel s buf total calls hlt hN] at hrun
      by_cases hret : (t.usbmuxd_recv s h (N - total)).ret = 0
      · simp only [hret, ne_eq, not_true_eq_false, if_false] at hrun
        have h2 := hwb s (N - total) (by omega) hret
        rw [Nat.mod_eq_of_lt (by omega)] at hrun
        refine ih _ _ _ _ out (by omega) ?_ hrun
        intro c hc
        rcases List.mem_append.mp hc with hc | hc
        · exact hok c hc
        · simp at hc; subst hc; rfl
      · simp only [ne_eq, hret, not_false_eq_true, if_true] at hrun
        cases hrun
        refine ⟨hle, ?_, ?_⟩
        · intro e; simp at e; omega
        · intro hall
          exact absurd (hall _ (List.mem_append_right _ (List.mem_singleton_self _))) hret
    · rw [loop_done t h N _ s buf total calls hlt] at hrun
      cases hrun
      exact ⟨hle, fun _ => hok, fun _ => by simp; omega⟩

end
theorem messageBodySize_lt (cfg : Config) (m : List Byte) : messageBodySize cfg m < 2 ^ 32 :=
  Nat.mod_lt _ (by norm_num)

theorem writeAt_zero_full (buf data : List Byte) (h : buf.length ≤ data.length) :
    writeAt buf 0 data = data := by
  simp [writeAt, List.drop_eq_nil_of_le h]

section
variable {σ : Type} (E : Externals σ) (cfg : Config)

theorem receive_delivers (h : Int) {s s1 : σ} {bytes : List Byte}
    (hd : Delivers E.transport h s bytes s1) (hlen : bytes.length < 2 ^ 32) (rfuel : Nat)
    (hrfuel : 2 ^ 32 ≤ rfuel) (buf : List Byte) :
    ∃ cs, ReceiveWholeBuffer E.transport rfuel s h buf bytes.length
        = some ⟨bytes.length, writeAt buf 0 bytes, s1, cs⟩ ∧
      (∀ c ∈ cs, c.offset + c.data.length ≤ bytes.length) ∧
      (0 < bytes.length → ∃ c ∈ cs, c.ret = 0 ∧ c.offset + c.data.length = bytes.length) := by
  obtain ⟨cs, h1, _, h2, h3⟩ := loop_delivers E.transport h bytes.length hlen hd rfuel buf 0 []
    (by omega) (by omega) (Nat.zero_le _)
  refine ⟨cs, h1, fun c hc => ?_, h3⟩
  rcases h2 c hc with hc1 | hc1
  · simp at hc1
  · exact hc1

theorem receive_truncates (h : Int) {s : σ} {n K : Nat}
    (ht : Truncates E.transport h s n K) (hn : n < 2 ^ 32) (rfuel : Nat)
    (hrfuel : 2 ^ 32 ≤ rfuel) (buf : List Byte)
    (hfail : ∀ s n, (E.transport.usbmuxd_recv s h n).ret ≠ 0 →
      (E.transport.usbmuxd_recv s h n).data.length ≤ n) :
    ∃ out, ReceiveWholeBuffer E.transport rfuel s h buf n = some out ∧ out.ret = K ∧
      ∀ c ∈ out.calls, c.offset + c.data.length ≤ n := by
  obtain ⟨out, h1, h2, _⟩ :=
    loop_truncates E.transport h n hn ht rfuel buf 0 [] (by omega) (by omega)
  refine ⟨out, h1, by omega, fun c hc => ?_⟩
  rcases loop_truncates_inside E.transport h n hn hfail ht rfuel buf 0 [] out (by omega) h1 c hc
    with hc1 | hc1
  · simp at hc1
  · exact hc1

theorem runloopBody_complete (rfuel : Nat) (hrfuel : 2 ^ 32 ≤ rfuel) (st : LoopState σ)
    {s1 s2 : σ} {envelope body : List Byte}
    (henv : envelope.length = sizeofPeerTalkHeader)
    (hsize : body.length = messageBodySize cfg envelope)
    (hfit : body.length ≤ st.rawMessageBuffer.length)
    (hd1 : Delivers E.transport st.self.socketHandle_ st.transport envelope s1)
    (hd2 : Delivers E.transport st.self.socketHandle_ s1 body s2) :
    runloopBody E cfg rfuel st = some (parseBody E cfg
      { st with transport := s2, rawMessageBuffer := writeAt st.rawMessageBuffer 0 body,
                events := st.events ++ [Event.envelopeRead sizeofPeerTalkHeader,
                  Event.bodyRead body.length body.length] }) := by
  have hb : body.length < 2 ^ 32 := by rw [hsize]; exact messageBodySize_lt _ _
  obtain ⟨cs1, h1, hin1, _⟩ := receive_delivers E st.self.socketHandle_ hd1
    (by rw [henv]; decide) rfuel hrfuel (List.replicate sizeofPeerTalkHeader 0)
  obtain ⟨cs2, h2, hin2, _⟩ := receive_delivers E st.self.socketHandle_ hd2 hb rfuel hrfuel
    st.rawMessageBuffer
  have hs1 : storesInside cs1 sizeofPeerTalkHeader = true :=
    storesInside_of_le cs1 envelope.length _ (by omega) hin1
  have hs2 : storesInside cs2 st.rawMessageBuffer.length = true :=
    storesInside_of_le cs2 body.length _ hfit hin2
  have hw : writeAt (List.replicate sizeofPeerTalkHeader 0) 0 envelope = envelope :=
    writeAt_zero_full _ _ (by simp [henv])
  rw [henv] at h1
  unfold runloopBody
  rw [h1]
  simp only [hw, hs1, ← hsize, henv, ne_eq, not_true_eq_false, if_false, h2, hs2,
    Bool.true_eq_false, List.append_assoc, List.singleton_append]

theorem runloopBody_overrun (rfuel : Nat) (hrfuel : 2 ^ 32 ≤ rfuel) (st : LoopState σ)
    {s1 s2 : σ} {envelope body : List Byte}
    (henv : envelope.length = sizeofPeerTalkHeader)
    (hsize : body.length = messageBodySize cfg envelope)
    (hbig : st.rawMessageBuffer.length < body.length)
    (hd1 : Delivers E.transport st.self.socketHandle_ st.transport envelope s1)
    (hd2 : Delivers E.transport st.self.socketHandle_ s1 body s2) :
    runloopBody E cfg rfuel st = some (Flow.fault,
      { st with transport := s2, rawMessageBuffer := writeAt st.rawMessageBuffer 0 body,
                events := st.events ++ [Event.envelopeRead sizeofPeerTalkHeader,
                  Event.bodyRead body.length body.length] }) := by
  have hb : body.length < 2 ^ 32 := by rw [hsize]; exact messageBodySize_lt _ _
  obtain ⟨cs1, h1, hin1, _⟩ := receive_delivers E st.self.socketHandle_ hd1
    (by rw [henv]; decide) rfuel hrfuel (List.replicate sizeofPeerTalkHeader 0)
  obtain ⟨cs2, h2, _, hlast⟩ := receive_delivers E st.self.socketHandle_ hd2 hb rfuel hrfuel
    st.rawMessageBuffer
  obtain ⟨c, hc, _, hcl⟩ := hlast (by omega)
  have hs1 : storesInside cs1 sizeofPeerTalkHeader = true :=
    storesInside_of_le cs1 envelope.length _ (by omega) hin1
  have hs2 : storesInside cs2 st.rawMessageBuffer.length = false :=
    storesInside_false cs2 _ c hc (by unfold RecvCall.landsInside; omega)
  have hw : writeAt (List.replicate sizeofPeerTalkHeader 0) 0 envelope = envelope :=
    writeAt_zero_full _ _ (by simp [henv])
  rw [henv] at h1
  unfold runloopBody
  rw [h1]
  simp only [hw, hs1, ← hsize, henv, ne_eq, not_true_eq_false, if_false, h2, hs2,
    Bool.true_eq_false, if_true, List.append_assoc, List.singleton_append]

theorem runloopBody_truncatedEnvelope (rfuel : Nat) (hrfuel : 2 ^ 32 ≤ rfuel)
    (st : LoopState σ) {K : Nat}
    (hfail : ∀ s n, (E.transport.usbmuxd_recv s st.self.socketHandle_ n).ret ≠ 0 →
      (E.transport.usbmuxd_recv s st.self.socketHandle_ n).data.length ≤ n)
    (ht : Truncates E.transport st.self.socketHandle_ st.transport sizeofPeerTalkHeader K) :
    ∃ s1, runloopBody E cfg rfuel st = some (Flow.exit,
      { st with transport := s1, events := st.events ++ [Event.envelopeRead K] }) := by
  obtain ⟨out, h1, h2, hin⟩ := receive_truncates E st.self.socketHandle_ ht (by decide) rfuel
    hrfuel (List.replicate sizeofPeerTalkHeader 0) hfail
  have hK := Truncates.lt E.transport st.self.socketHandle_ ht
  have hs1 : storesInside out.calls sizeofPeerTalkHeader = true :=
    storesInside_of_le out.calls _ _ (Nat.le_refl _) hin
  unfold runloopBody
  rw [h1]
  have hne : ¬ K = sizeofPeerTalkHeader := by omega
  simp only [ne_eq, h2, hs1, Bool.true_eq_false, if_false]
  rw [if_pos hne]
  exact ⟨out.transport, rfl⟩

theorem runloopBody_truncatedBody (rfuel : Nat) (hrfuel : 2 ^ 32 ≤ rfuel)
    (st : LoopState σ) {s1 : σ} {envelope : List Byte} {K : Nat}
    (hfail : ∀ s n, (E.transport.usbmuxd_recv s st.self.socketHandle_ n).ret ≠ 0 →
      (E.transport.usbmuxd_recv s st.self.socketHandle_ n).data.length ≤ n)
    (henv : envelope.length = sizeofPeerTalkHeader)
    (hfit : messageBodySize cfg envelope ≤ st.rawMessageBuffer.length)
    (hd1 : Delivers E.transport st.self.socketHandle_ st.transport envelope s1)
    (ht : Truncates E.transport st.self.socketHandle_ s1 (messageBodySize cfg envelope) K) :
    ∃ s2 raw, runloopBody E cfg rfuel st = some (Flow.exit,
      { st with transport := s2, rawMessageBuffer := raw,
                events := st.events ++ [Event.envelopeRead sizeofPeerTalkHeader,
                  Event.bodyRead (messageBodySize cfg envelope) K] }) := by
  obtain ⟨cs1, h1, hin1, _⟩ := receive_delivers E st.self.socketHandle_ hd1
    (by rw [henv]; decide) rfuel hrfuel (List.replicate sizeofPeerTalkHeader 0)
  obtain ⟨out, h2, h3, hin2⟩ := receive_truncates E st.self.socketHandle_ ht
    (messageBodySize_lt _ _) rfuel hrfuel st.rawMessageBuffer hfail
  have hK := Truncates.lt E.transport st.self.socketHandle_ ht
  have hs1 : storesInside cs1 sizeofPeerTalkHeader = true :=
    storesInside_of_le cs1 envelope.length _ (by omega) hin1
  have hs2 : storesInside out.calls st.rawMessageBuffer.length = true :=
    storesInside_of_le out.calls _ _ hfit hin2
  have hw : writeAt (List.replicate sizeofPeerTalkHeader 0) 0 envelope = envelope :=
    writeAt_zero_full _ _ (by simp [henv])
  rw [henv] at h1
  unfold runloopBody
  rw [h1]
  have hne : ¬ K = messageBodySize cfg envelope := by omega
  simp only [hw, hs1, ne_eq, not_true_eq_false, if_false, h2, h3, hs2, Bool.true_eq_false,
    List.append_assoc, List.singleton_append]
  rw [if_pos hne]
  exact ⟨out.transport, out.outputBuffer, rfl⟩

end

section
variable {σ : Type} (E : Externals σ) (cfg : Config)

theorem parseBody_decoded (st : LoopState σ) (rgbPixels : List Byte)
    (hpx : E.stbi_load_from_memory (st.rawMessageBuffer.drop (rgbOffset cfg))
      (toInt32 (loadU32 st.rawMessageBuffer)) = some rgbPixels)
    (hlen : st.self.RGBImageBuffer_.length ≤ rgbPixels.length) :
    ∃ st1 : LoopState σ, parseBody E cfg st = (Flow.next, st1) ∧
      st1.transport = st.transport ∧
      st1.self.connectionEstablished_ = st.self.connectionEstablished_ ∧
      st1.self.socketHandle_ = st.self.socketHandle_ ∧
      st1.self.onNewFrame = st.self.onNewFrame ∧
      st1.self.onStreamStopped = st.self.onStreamStopped ∧
      st1.self.RGBImageBuffer_ = rgbPixels.take st.self.RGBImageBuffer_.length ∧
      st1.self.depthImageBuffer_ = writeAt st.self.depthImageBuffer_ 0
        (E.lzfse_decode_buffer (depthCall cfg st)).written ∧
      st1.self.intrinsicMatrixCoeffs_ =
        (st.rawMessageBuffer.drop sizeofRecord3DHeader).take cfg.sizeofIntrinsicMatrixCoeffs ∧
      st1.events = st.events ++
        [Event.rgbDecode (rgbOffset cfg) (toInt32 (loadU32 st.rawMessageBuffer)),
         Event.depthDecode (depthOffset cfg (loadU32 st.rawMessageBuffer))
           (loadU32 (st.rawMessageBuffer.drop 4))
           (decide ((E.lzfse_decode_buffer (depthCall cfg st)).outSize = cfg.depthBufferSize_))]
        ++ (if st.self.onNewFrame then
          [Event.newFrame st1.self.RGBImageBuffer_ st1.self.depthImageBuffer_
            st1.self.intrinsicMatrixCoeffs_]
         else []) := by
  have hnlt : ¬ rgbPixels.length < st.self.RGBImageBuffer_.length := by omega
  have hret : ∀ (a : Bool) (b : Int) (c d : Bool) (e : Ptr) (f g i : List Byte),
      (DecompressDepthBuffer E.lzfse_decode_buffer cfg
        ⟨a, b, c, d, st.self.lzfseScratchBuffer_, e, f, g, i⟩
        (st.rawMessageBuffer.drop (depthOffset cfg (loadU32 st.rawMessageBuffer)))
        (loadU32 (st.rawMessageBuffer.drop 4)) st.self.depthImageData
        st.self.depthImageBuffer_).ret.isSome
      = decide ((E.lzfse_decode_buffer (depthCall cfg st)).outSize = cfg.depthBufferSize_) ∧
      (DecompressDepthBuffer E.lzfse_decode_buffer cfg
        ⟨a, b, c, d, st.self.lzfseScratchBuffer_, e, f, g, i⟩
        (st.rawMessageBuffer.drop (depthOffset cfg (loadU32 st.rawMessageBuffer)))
        (loadU32 (st.rawMessageBuffer.drop 4)) st.self.depthImageData
        st.self.depthImageBuffer_).destination
      = writeAt st.self.depthImageBuffer_ 0 (E.lzfse_decode_buffer (depthCall cfg st)).written := by
    intro a b c d e f g i
    unfold DecompressDepthBuffer depthCall
    by_cases hsz : (E.lzfse_decode_buffer (depthCall cfg st)).outSize = cfg.depthBufferSize_
    · unfold depthCall at hsz; simp [hsz]
    · unfold depthCall at hsz; simp [hsz]
  have hret1 := fun a b c d e f g i => (hret a b c d e f g i).1
  have hret2 := fun a b c d e f g i => (hret a b c d e f g i).2
  unfold parseBody
  simp only [hpx, hnlt, if_false]
  refine ⟨_, rfl, rfl, rfl, rfl, rfl, rfl, rfl, ?_, rfl, ?_⟩
  · exact hret2 _ _ _ _ _ _ _ _
  · cases hnf : st.self.onNewFrame <;> simp [hret1, hret2]

theorem parseBody_rawMessageBuffer (st : LoopState σ) :
    (parseBody E cfg st).2.rawMessageBuffer = st.rawMessageBuffer := by
  unfold parseBody
  simp only
  split
  · rfl
  · split <;> rfl

theorem parseBody_rgbDecode_mem (st : LoopState σ) :
    Event.rgbDecode (rgbOffset cfg) (toInt32 (loadU32 st.rawMessageBuffer))
      ∈ (parseBody E cfg st).2.events := by
  unfold parseBody
  simp only
  split
  · simp
  · split
    · simp
    · split <;> simp

theorem loop_next (rfuel fuel : Nat) (st st1 : LoopState σ)
    (hconn : st.self.connectionEstablished_ = true)
    (hbody : runloopBody E cfg rfuel st = some (Flow.next, st1)) :
    StreamProcessingRunloop.loop E cfg rfuel (fuel + 1) st
      = StreamProcessingRunloop.loop E cfg rfuel fuel st1 := by
  simp [StreamProcessingRunloop.loop, hconn, hbody]

theorem loop_exit (rfuel fuel : Nat) (st st1 : LoopState σ)
    (hconn : st.self.connectionEstablished_ = true)
    (hbody : runloopBody E cfg rfuel st = some (Flow.exit, st1)) :
    StreamProcessingRunloop.loop E cfg rfuel (fuel + 1) st = some (Flow.exit, st1) := by
  simp [StreamProcessingRunloop.loop, hconn, hbody]

theorem loop_carries (rfuel : Nat) (hrfuel : 2 ^ 32 ≤ rfuel) (h : Int) (self : Record3DStream)
    {s s1 : σ} {msgs : List Message} (hc : Carries E.transport cfg h s msgs s1) :
    ∀ (fuel : Nat) (st : LoopState σ), st.transport = s → st.self.socketHandle_ = h →
      st.self.connectionEstablished_ = true →
      st.self.RGBImageBuffer_.length = self.RGBImageBuffer_.length →
      st.rawMessageBuffer.length = cfg.depthBufferSize_ * 2 →
      (∀ m ∈ msgs, m.body.length ≤ cfg.depthBufferSize_ * 2) →
      CodecsSucceed E cfg self st.rawMessageBuffer msgs →
      ∃ st1 : LoopState σ,
        StreamProcessingRunloop.loop E cfg rfuel (fuel + msgs.length) st
          = StreamProcessingRunloop.loop E cfg rfuel fuel st1 ∧
        st1.transport = s1 ∧ st1.self.socketHandle_ = h ∧
        st1.self.connectionEstablished_ = true ∧
        st1.rawMessageBuffer.length = cfg.depthBufferSize_ * 2 ∧
        st1.self.onNewFrame = st.self.onNewFrame ∧
        st1.self.onStreamStopped = st.self.onStreamStopped ∧
        countNewFrame st1.events
          = countNewFrame st.events + (if st.self.onNewFrame then msgs.length else 0) ∧
        countStreamStopped st1.events = countStreamStopped st.events ∧
        countBodyRead st1.events = countBodyRead st.events + msgs.length := by
  induction hc with
  | nil s =>
    intro fuel st hs hh hconn hL hraw _ _
    exact ⟨st, rfl, hs, hh, hconn, hraw, rfl, rfl, by simp, rfl, rfl⟩
  | cons s s1 s2 s3 m rest henv hsize hd1 hd2 hrest ih =>
    intro fuel st hs hh hconn hL hraw hfit hcodec
    subst hs hh
    have hfitm : m.body.length ≤ st.rawMessageBuffer.length := by
      rw [hraw]; exact hfit m (List.mem_cons_self _ _)
    have hb := runloopBody_complete E cfg rfuel hrfuel st henv hsize hfitm hd1 hd2
    obtain ⟨⟨px, hpx, hpl⟩, _, hcodec2⟩ := hcodec
    obtain ⟨st1, hp, htr, hc1, hs1, hn1, hss1, hrgb, _, _, hev⟩ := parseBody_decoded E cfg
      { st with transport := s2, rawMessageBuffer := writeAt st.rawMessageBuffer 0 m.body,
                events := st.events ++ [Event.envelopeRead sizeofPeerTalkHeader,
                  Event.bodyRead m.body.length m.body.length] } px hpx (by simpa [hL] using hpl)
    have hraw1 := parseBody_rawMessageBuffer E cfg
      { st with transport := s2, rawMessageBuffer := writeAt st.rawMessageBuffer 0 m.body,
                events := st.events ++ [Event.envelopeRead sizeofPeerTalkHeader,
                  Event.bodyRead m.body.length m.body.length] }
    rw [hp] at hb hraw1
    simp only at htr hc1 hs1 hn1 hss1 hrgb hev hraw1
    have hL1 : st1.self.RGBImageBuffer_.length = st.self.RGBImageBuffer_.length := by
      rw [hrgb, List.length_take]; omega
    have hrawlen : st1.rawMessageBuffer.length = cfg.depthBufferSize_ * 2 := by
      rw [hraw1, writeAt_length_eq _ _ _ (by omega), hraw]
    obtain ⟨st2, hrun, h1, h2, h3, h4, h5, h6, h7, h8, h9⟩ :=
      ih fuel st1 htr hs1 (hc1.trans hconn) (hL1.trans hL) hrawlen
        (fun x hx => hfit x (List.mem_cons_of_mem _ hx)) (by rw [hraw1]; exact hcodec2)
    refine ⟨st2, ?_, h1, h2, h3, h4, h5.trans hn1, h6.trans hss1, ?_, ?_, ?_⟩
    · rw [List.length_cons, ← Nat.add_assoc, loop_next E cfg rfuel _ st st1 hconn hb, hrun]
    · rw [h7, hev, hn1]
      cases hnf : st.self.onNewFrame
      · simp [countNewFrame, List.countP_append, List.countP_cons, Event.isNewFrame]
      · simp [countNewFrame, List.countP_append, List.countP_cons, Event.isNewFrame]
        omega
    · rw [h8, hev]
      cases hnf : st.self.onNewFrame
      all_goals
        simp [countStreamStopped, List.countP_append, List.countP_cons, Event.isStreamStopped]
    · rw [h9, hev]
      cases hnf : st.self.onNewFrame
      all_goals
        simp [countBodyRead, List.countP_append, List.countP_cons, Event.isBodyRead]
        omega

end

theorem and_shifted_mask (n j k : Nat) :
    n &&& ((2 ^ k - 1) <<< j) = ((n >>> j) % 2 ^ k) <<< j := by
  apply Nat.eq_of_testBit_eq
  intro i
  simp only [Nat.testBit_and, Nat.testBit_shiftLeft, Nat.testBit_two_pow_sub_one,
    Nat.testBit_mod_two_pow, Nat.testBit_shiftRight]
  by_cases h : j ≤ i
  · have e : j + (i - j) = i := by omega
    simp [h, e, Bool.and_comm]
  · simp [h]

theorem and_byte_masks (n : Nat) :
    (n &&& 0xFF) = n % 256 ∧ (n &&& 0xFF00) = (n / 256 % 256) * 256 ∧
    (n &&& 0xFF0000) = (n / 65536 % 256) * 65536 ∧
    (n &&& 0xFF000000) = (n / 16777216 % 256) * 16777216 := by
  have a0 := and_shifted_mask n 0 8
  have a1 := and_shifted_mask n 8 8
  have a2 := and_shifted_mask n 16 8
  have a3 := and_shifted_mask n 24 8
  simp only [Nat.shiftLeft_eq, Nat.shiftRight_eq_div_pow] at a0 a1 a2 a3
  norm_num at a0 a1 a2 a3
  exact ⟨a0, a1, a2, a3⟩

theorem NTOHL_eq (W : Nat) (hW : 32 ≤ W) (n : Nat) (h : n < 2 ^ 32) :
    NTOHL_ W n = (n % 256) * 2 ^ 24 + (n / 256 % 256) * 2 ^ 16 + (n / 65536 % 256) * 2 ^ 8
      + n / 16777216 := by
  have h32 : (2:Nat) ^ 32 ≤ 2 ^ W := Nat.pow_le_pow_right (by norm_num) hW
  have hlt : n < 2 ^ W := lt_of_lt_of_le h h32
  obtain ⟨a0, a1, a2, a3⟩ := and_byte_masks n
  unfold NTOHL_
  rw [Nat.mod_eq_of_lt hlt, a0, a1, a2, a3]
  simp only [Nat.shiftLeft_eq, Nat.shiftRight_eq_div_pow]
  have e1 : n % 256 * 2 ^ 24 % 2 ^ W = n % 256 * 2 ^ 24 := Nat.mod_eq_of_lt (by omega)
  have e2 : n / 256 % 256 * 256 * 2 ^ 8 % 2 ^ W = n / 256 % 256 * 2 ^ 16 := by
    rw [Nat.mod_eq_of_lt (by omega)]; omega
  have e3 : n / 65536 % 256 * 65536 / 2 ^ 8 = n / 65536 % 256 * 2 ^ 8 := by omega
  have e4 : n / 16777216 % 256 * 16777216 / 2 ^ 24 = n / 16777216 := by omega
  rw [e1, e2, e3, e4]
  have o1 : n % 256 * 2 ^ 24 ||| n / 256 % 256 * 2 ^ 16
      = n % 256 * 2 ^ 24 + n / 256 % 256 * 2 ^ 16 := by
    have := Nat.mul_add_lt_is_or (show n / 256 % 256 * 2 ^ 16 < 2 ^ 24 by omega) (n % 256)
    rw [Nat.mul_comm] at this; exact this.symm
  rw [o1]
  have o2 := Nat.mul_add_lt_is_or (show n / 65536 % 256 * 2 ^ 8 < 2 ^ 16 by omega)
    (n % 256 * 2 ^ 8 + n / 256 % 256)
  have o2a : 2 ^ 16 * (n % 256 * 2 ^ 8 + n / 256 % 256)
      = n % 256 * 2 ^ 24 + n / 256 % 256 * 2 ^ 16 := by omega
  rw [o2a] at o2
  rw [← o2]
  have o3 := Nat.mul_add_lt_is_or (show n / 16777216 < 2 ^ 8 by omega)
    (n % 256 * 2 ^ 16 + n / 256 % 256 * 2 ^ 8 + n / 65536 % 256)
  have o3a : 2 ^ 8 * (n % 256 * 2 ^ 16 + n / 256 % 256 * 2 ^ 8 + n / 65536 % 256)
      = n % 256 * 2 ^ 24 + n / 256 % 256 * 2 ^ 16 + n / 65536 % 256 * 2 ^ 8 := by omega
  rw [o3a] at o3
  rw [← o3]

theorem NTOHL_lt (W : Nat) (hW : 32 ≤ W) (n : Nat) (h : n < 2 ^ 32) : NTOHL_ W n < 2 ^ 32 := by
  rw [NTOHL_eq W hW n h]; omega

theorem bytes_extract (a b c d : Nat) (hb : b < 256) (hc : c < 256) (hd : d < 256) :
    (a * 2 ^ 24 + b * 2 ^ 16 + c * 2 ^ 8 + d) % 256 = d ∧
    (a * 2 ^ 24 + b * 2 ^ 16 + c * 2 ^ 8 + d) / 256 % 256 = c ∧
    (a * 2 ^ 24 + b * 2 ^ 16 + c * 2 ^ 8 + d) / 65536 % 256 = b ∧
    (a * 2 ^ 24 + b * 2 ^ 16 + c * 2 ^ 8 + d) / 16777216 = a := by
  have q1 : (a * 2 ^ 24 + b * 2 ^ 16 + c * 2 ^ 8 + d) / 256 = a * 65536 + b * 256 + c := by
    omega
  have q2 : (a * 2 ^ 24 + b * 2 ^ 16 + c * 2 ^ 8 + d) / 65536 = a * 256 + b := by omega
  refine ⟨by omega, ?_, ?_, by omega⟩
  · rw [q1]; omega
  · rw [q2]; omega

theorem bytes_recompose (n : Nat) :
    n / 16777216 * 2 ^ 24 + n / 65536 % 256 * 2 ^ 16 + n / 256 % 256 * 2 ^ 8 + n % 256 = n := by
  omega

theorem NTOHL_NTOHL (W : Nat) (hW : 32 ≤ W) (n : Nat) (h : n < 2 ^ 32) :
    NTOHL_ W (NTOHL_ W n) = n := by
  have hm := NTOHL_lt W hW n h
  rw [NTOHL_eq W hW _ hm, NTOHL_eq W hW n h]
  obtain ⟨e0, e1, e2, e3⟩ := bytes_extract (n % 256) (n / 256 % 256) (n / 65536 % 256)
    (n / 16777216) (Nat.mod_lt _ (by norm_num)) (Nat.mod_lt _ (by norm_num)) (by omega)
  rw [e0, e1, e2, e3]
  exact bytes_recompose n

theorem body_size_bytes (pre : List Byte) (hpre : pre.length = 12) (b0 b1 b2 b3 : Byte) :
    PeerTalkHeader.body_size (pre ++ [b0, b1, b2, b3])
      = b0.val + b1.val * 2 ^ 8 + b2.val * 2 ^ 16 + b3.val * 2 ^ 24 := by
  unfold PeerTalkHeader.body_size
  rw [← hpre, List.drop_left]
  rfl

/-! ## Properties of the program -/

/-- Claim C1: over a transport that never reports an error and whose every
receive call yields between 1 and the requested number of bytes,
`ReceiveWholeBuffer(socket, buffer, N)` on a buffer of at least `N` bytes
terminates (fuel `N` is enough) and returns exactly `N`. The calls it made are
the transport's answers, from the state it was entered in, to successive
requests for the bytes still missing, each stored at the offset equal to the
total received before it; together they delivered `N` bytes, which are the
first `N` bytes of the buffer in delivery order. Every store stays inside the
buffer and the bytes after the first `N` are untouched. -/
theorem ReceiveWholeBuffer_chunked {σ : Type} (t : Transport σ) (socketHandle : Int)
    (N : Nat) (hN : N < 2 ^ 32)
    (hgood : ∀ s n, 0 < n → (t.usbmuxd_recv s socketHandle n).ret = 0 ∧
      1 ≤ (t.usbmuxd_recv s socketHandle n).data.length ∧
      (t.usbmuxd_recv s socketHandle n).data.length ≤ n)
    (fuel : Nat) (hfuel : N ≤ fuel) (s : σ) (outputBuffer : List Byte)
    (hcap : N ≤ outputBuffer.length) :
    ∃ out, ReceiveWholeBuffer t fuel s socketHandle outputBuffer N = some out ∧
      out.ret = N ∧
      Trace t socketHandle N s 0 out.calls out.transport ∧
      (deliveredBytes out.calls).length = N ∧
      out.outputBuffer.take N = deliveredBytes out.calls ∧
      out.outputBuffer.drop N = outputBuffer.drop N ∧
      out.outputBuffer.length = outputBuffer.length ∧
      contiguousFrom 0 out.calls = true ∧
      (∀ c ∈ out.calls, c.ret = 0 ∧ c.landsInside outputBuffer.length) := by
  obtain ⟨out, new, hrun, hret, hcalls, htr, hlen, hbuf, hall⟩ :=
    loop_good_trace t socketHandle N hN hgood fuel s outputBuffer 0 [] (Nat.zero_le _)
      (by omega) (Nat.zero_le _)
  simp only [List.nil_append] at hcalls
  rw [← hcalls] at htr hlen hbuf hall
  simp only [Nat.zero_add] at hlen
  have htake := writeAt_take outputBuffer 0 (deliveredBytes out.calls) (Nat.zero_le _)
  have hdrop := writeAt_drop outputBuffer 0 (deliveredBytes out.calls) (Nat.zero_le _)
  have hleq := writeAt_length_eq outputBuffer 0 (deliveredBytes out.calls) (by omega)
  simp only [Nat.zero_add, hlen, List.take_zero, List.nil_append] at htake hdrop
  refine ⟨out, hrun, hret, htr, hlen, ?_, ?_, ?_, Trace.contiguous t socketHandle N htr, ?_⟩
  · rw [hbuf]; exact htake
  · rw [hbuf]; exact hdrop
  · rw [hbuf]; exact hleq
  · intro c hc
    obtain ⟨h1, h2⟩ := hall c hc
    exact ⟨h1, by unfold RecvCall.landsInside; omega⟩

/-- Witness of C1: five bytes read into an 8-byte buffer from a transport that
yields two bytes per call. -/
theorem ReceiveWholeBuffer_chunked_witness :
    (5 : Nat) < 2 ^ 32 ∧
    ∃ out, ReceiveWholeBuffer Demo.patternTransport 5 0 7 (List.replicate 8 0) 5 = some out ∧
      out.ret = 5 ∧
      Trace Demo.patternTransport 7 5 0 0 out.calls out.transport ∧
      (deliveredBytes out.calls).length = 5 ∧
      out.outputBuffer.take 5 = deliveredBytes out.calls ∧
      out.outputBuffer.drop 5 = (List.replicate 8 (0 : Byte)).drop 5 ∧
      out.outputBuffer.length = (List.replicate 8 (0 : Byte)).length ∧
      contiguousFrom 0 out.calls = true ∧
      (∀ c ∈ out.calls, c.ret = 0 ∧ c.landsInside (List.replicate 8 (0 : Byte)).length) :=
  ⟨by norm_num,
   ReceiveWholeBuffer_chunked Demo.patternTransport 7 5 (by norm_num)
    (by
      intro s n hn
      simp only [Demo.patternTransport, List.length_replicate, true_and]
      omega)
    5 (Nat.le_refl 5) 0 (List.replicate 8 0) (by decide)⟩

/-- Claim C2: if the transport delivers `K < N` bytes in total over successful
receive calls and the next call reports a non-zero code, `ReceiveWholeBuffer`
returns `K` (not `N`), whatever the failing call stored or counted.
Consequently, over a transport whose successful calls yield between 1 and the
requested number of bytes (failing calls being free), the read terminates and
its return value is `N` exactly when no receive call failed, and below `N`
otherwise. -/
theorem ReceiveWholeBuffer_transport_error {σ : Type} (t : Transport σ) (socketHandle : Int)
    (N : Nat) (hN : N < 2 ^ 32) (fuel : Nat) (hfuel : N ≤ fuel) (s : σ)
    (outputBuffer : List Byte) :
    (∀ K, Truncates t socketHandle s N K →
      ∃ out, ReceiveWholeBuffer t fuel s socketHandle outputBuffer N = some out ∧
        out.ret = K ∧ K < N ∧ out.ret ≠ N ∧ ∃ c ∈ out.calls, c.ret ≠ 0) ∧
    ((∀ s n, 0 < n → (t.usbmuxd_recv s socketHandle n).ret = 0 →
        1 ≤ (t.usbmuxd_recv s socketHandle n).data.length ∧
        (t.usbmuxd_recv s socketHandle n).data.length ≤ n) →
      ∃ out, ReceiveWholeBuffer t fuel s socketHandle outputBuffer N = some out ∧
        out.ret ≤ N ∧ (out.ret = N ↔ ∀ c ∈ out.calls, c.ret = 0)) := by
  constructor
  · intro K ht
    obtain ⟨out, h1, h2, h3⟩ :=
      loop_truncates t socketHandle N hN ht fuel outputBuffer 0 [] (by omega) hfuel
    have hK := Truncates.lt t socketHandle ht
    exact ⟨out, h1, by omega, hK, by omega, h3⟩
  · intro hstep
    obtain ⟨out, hrun⟩ := loop_terminates t socketHandle N hN hstep fuel s outputBuffer 0 []
      (Nat.zero_le _) (by omega)
    have hiff := loop_ret_iff t socketHandle N hN (fun s n hn hret => (hstep s n hn hret).2)
      fuel s outputBuffer 0 [] out (Nat.zero_le _) (by simp) hrun
    exact ⟨out, hrun, hiff.1, hiff.2⟩

/-- Witness of C2: a stream of five bytes, read in chunks of three, closes before
the sixteen bytes asked for. -/
theorem ReceiveWholeBuffer_transport_error_witness :
    ∃ out, ReceiveWholeBuffer (Demo.streamTransport 3) 16 [1, 2, 3, 4, 5] 5 [] 16 = some out ∧
      out.ret = 5 ∧ 5 < 16 ∧ out.ret ≠ 16 ∧ ∃ c ∈ out.calls, c.ret ≠ 0 :=
  (ReceiveWholeBuffer_transport_error (Demo.streamTransport 3) 5 16 (by norm_num) 16
    (Nat.le_refl 16) [1, 2, 3, 4, 5] []).1 5
    (Truncates.chunk [1, 2, 3, 4, 5] 16 2 rfl (by decide) (by decide)
      (Truncates.chunk [4, 5] 13 0 rfl (by decide) (by decide)
        (Truncates.fail [] 11 (by decide) (by decide))))

/-- Counterexample to C3 as stated: on a Streaming session with `onStreamStopped`
registered, two `Disconnect()` calls in a row produce two stream-stopped
notifications, not one; the second is made while already Disconnected. -/
theorem Disconnect_twice_two_notifications :
    Demo.session.onStreamStopped = true ∧
    (Disconnect Demo.session).1.connectionEstablished_ = false ∧
    (Disconnect (Disconnect Demo.session).1).2 = [Event.streamStopped] ∧
    countStreamStopped ((Disconnect Demo.session).2 ++ (Disconnect (Disconnect Demo.session).1).2)
      = 2 ∧
    countStreamStopped ((Disconnect Demo.session).2 ++ (Disconnect (Disconnect Demo.session).1).2)
      ≠ 1 := by
  decide

/-- Claim C3, amended: with an `onStreamStopped` callback registered, every
`Disconnect()` call produces exactly one stream-stopped notification whatever
the connection flag was, so two calls in a row produce two; the state after the
second call equals the state after the first, with the flag cleared. -/
theorem Disconnect_notifies_each_call (self : Record3DStream)
    (hcb : self.onStreamStopped = true) :
    (Disconnect self).2 = [Event.streamStopped] ∧
    (Disconnect (Disconnect self).1).2 = [Event.streamStopped] ∧
    countStreamStopped ((Disconnect self).2 ++ (Disconnect (Disconnect self).1).2) = 2 ∧
    (Disconnect (Disconnect self).1).1 = (Disconnect self).1 ∧
    (Disconnect self).1.connectionEstablished_ = false ∧
    (Disconnect self).1 = { self with connectionEstablished_ := false } := by
  simp [Disconnect, hcb, countStreamStopped, Event.isStreamStopped]

/-- Witness of the amended C3 on a session that is already Disconnected. -/
theorem Disconnect_notifies_each_call_witness :
    (Disconnect { Demo.session with connectionEstablished_ := false }).2
      = [Event.streamStopped] ∧
    (Disconnect (Disconnect { Demo.session with connectionEstablished_ := false }).1).2
      = [Event.streamStopped] ∧
    countStreamStopped
      ((Disconnect { Demo.session with connectionEstablished_ := false }).2 ++
        (Disconnect (Disconnect { Demo.session with connectionEstablished_ := false }).1).2)
      = 2 ∧
    (Disconnect (Disconnect { Demo.session with connectionEstablished_ := false }).1).1
      = (Disconnect { Demo.session with connectionEstablished_ := false }).1 ∧
    (Disconnect { Demo.session with connectionEstablished_ := false }).1.connectionEstablished_
      = false ∧
    (Disconnect { Demo.session with connectionEstablished_ := false }).1
      = { { Demo.session with connectionEstablished_ := false } with
          connectionEstablished_ := false } :=
  Disconnect_notifies_each_call { Demo.session with connectionEstablished_ := false } rfl

/-- Claim C4: `ConnectToDevice` returns false exactly when the connection flag is
already set or the socket open returns a negative value; when the flag is set
the socket open is not called (no event, transport untouched); and whenever it
returns false the object (flag and socket handle included) is unchanged and no
runloop is started. -/
theorem ConnectToDevice_failure_atomic {σ : Type} (t : Transport σ) (cfg : Config)
    (self : Record3DStream) (s : σ) (device : DeviceInfo) :
    ((ConnectToDevice t cfg self s device).ret = false ↔
      (self.connectionEstablished_ = true ∨
        (t.usbmuxd_connect s device.handle cfg.DEVICE_PORT).1 < 0)) ∧
    (self.connectionEstablished_ = true →
      (ConnectToDevice t cfg self s device).events = [] ∧
      (ConnectToDevice t cfg self s device).transport = s) ∧
    ((ConnectToDevice t cfg self s device).ret = false →
      (ConnectToDevice t cfg self s device).self = self ∧
      (ConnectToDevice t cfg self s device).self.connectionEstablished_
        = self.connectionEstablished_ ∧
      (ConnectToDevice t cfg self s device).self.socketHandle_ = self.socketHandle_ ∧
      Event.runloopStarted ∉ (ConnectToDevice t cfg self s device).events) ∧
    ((ConnectToDevice t cfg self s device).ret = true →
      (ConnectToDevice t cfg self s device).self.connectionEstablished_ = true ∧
      (ConnectToDevice t cfg self s device).self.socketHandle_
        = (t.usbmuxd_connect s device.handle cfg.DEVICE_PORT).1 ∧
      (ConnectToDevice t cfg self s device).events
        = [Event.socketOpen device.handle cfg.DEVICE_PORT, Event.runloopStarted]) := by
  unfold ConnectToDevice
  by_cases hc : self.connectionEstablished_ = true
  · simp [hc]
  · by_cases hs : (t.usbmuxd_connect s device.handle cfg.DEVICE_PORT).1 < 0
    · simp [hc, hs]
    · simp [hc, hs]

/-- Claim C8: for wire bytes `b0 b1 b2 b3` in bytes 12..15 of the envelope, the
raw field is their little-endian value, and the `messageBodySize` the runloop
uses is the big-endian value `b0*2^24 + b1*2^16 + b2*2^8 + b3`; it is below
`2^32` for every width of `unsigned long` from 32 bits up (64 included); and
`NTOHL_` applied twice to a 32-bit value returns that value. -/
theorem messageBodySize_bigEndian (cfg : Config) (hW : 32 ≤ cfg.unsignedLongBits)
    (pre : List Byte) (hpre : pre.length = 12) (b0 b1 b2 b3 : Byte) :
    PeerTalkHeader.body_size (pre ++ [b0, b1, b2, b3])
      = b0.val + b1.val * 2 ^ 8 + b2.val * 2 ^ 16 + b3.val * 2 ^ 24 ∧
    messageBodySize cfg (pre ++ [b0, b1, b2, b3])
      = b0.val * 2 ^ 24 + b1.val * 2 ^ 16 + b2.val * 2 ^ 8 + b3.val ∧
    messageBodySize cfg (pre ++ [b0, b1, b2, b3]) < 2 ^ 32 ∧
    NTOHL_ cfg.unsignedLongBits (PeerTalkHeader.body_size (pre ++ [b0, b1, b2, b3])) < 2 ^ 32 ∧
    (∀ n, n < 2 ^ 32 →
      NTOHL_ cfg.unsignedLongBits (NTOHL_ cfg.unsignedLongBits n) = n) := by
  have hb := body_size_bytes pre hpre b0 b1 b2 b3
  have h0 := b0.isLt
  have h1 := b1.isLt
  have h2 := b2.isLt
  have h3 := b3.isLt
  have hn : b0.val + b1.val * 2 ^ 8 + b2.val * 2 ^ 16 + b3.val * 2 ^ 24 < 2 ^ 32 := by omega
  have hv := NTOHL_eq cfg.unsignedLongBits hW _ hn
  have hl := NTOHL_lt cfg.unsignedLongBits hW _ hn
  have hval : NTOHL_ cfg.unsignedLongBits
      (b0.val + b1.val * 2 ^ 8 + b2.val * 2 ^ 16 + b3.val * 2 ^ 24)
      = b0.val * 2 ^ 24 + b1.val * 2 ^ 16 + b2.val * 2 ^ 8 + b3.val := by
    rw [hv]
    generalize b0.val = x0 at *
    generalize b1.val = x1 at *
    generalize b2.val = x2 at *
    generalize b3.val = x3 at *
    clear hv hl hb
    omega
  refine ⟨hb, ?_, messageBodySize_lt _ _, ?_, fun n hn2 => NTOHL_NTOHL _ hW n hn2⟩
  · unfold messageBodySize
    rw [hb, hval]
    exact Nat.mod_eq_of_lt (by omega)
  · rw [hb]; exact hl

/-- Witness of C8: the envelope that announces 16 bytes, on a 64-bit `unsigned long`. -/
theorem messageBodySize_bigEndian_witness :
    messageBodySize Demo.config (List.replicate 12 0 ++ [0, 0, 0, 16])
      = (0 : Byte).val * 2 ^ 24 + (0 : Byte).val * 2 ^ 16 + (0 : Byte).val * 2 ^ 8
        + (16 : Byte).val :=
  (messageBodySize_bigEndian Demo.config (by decide) (List.replicate 12 0) rfl 0 0 0 16).2.1

/-- Claim C9: `DecompressDepthBuffer` returns `nullptr` exactly when the byte
count returned by the native primitive differs from `depthBufferSize_` (whatever
the primitive stored in the destination, which is kept), and otherwise returns
the destination pointer it was given; the primitive is called with output
capacity `depthBufferSize_`, the given source and the session's scratch buffer. -/
theorem DecompressDepthBuffer_result (lzfse_decode_buffer : LzfseCall → LzfseResult)
    (cfg : Config) (self : Record3DStream) (compressedDepthBuffer : List Byte)
    (compressedDepthBufferSize : Nat) (destinationBuffer : Ptr) (destination : List Byte) :
    ((DecompressDepthBuffer lzfse_decode_buffer cfg self compressedDepthBuffer
        compressedDepthBufferSize destinationBuffer destination).ret = none ↔
      (lzfse_decode_buffer (DecompressDepthBuffer lzfse_decode_buffer cfg self
        compressedDepthBuffer compressedDepthBufferSize destinationBuffer destination).call).outSize
        ≠ cfg.depthBufferSize_) ∧
    ((DecompressDepthBuffer lzfse_decode_buffer cfg self compressedDepthBuffer
        compressedDepthBufferSize destinationBuffer destination).ret ≠ none →
      (DecompressDepthBuffer lzfse_decode_buffer cfg self compressedDepthBuffer
        compressedDepthBufferSize destinationBuffer destination).ret = some destinationBuffer) ∧
    (DecompressDepthBuffer lzfse_decode_buffer cfg self compressedDepthBuffer
        compressedDepthBufferSize destinationBuffer destination).call
      = ⟨destinationBuffer, cfg.depthBufferSize_, compressedDepthBuffer,
          compressedDepthBufferSize, self.lzfseScratchBuffer_⟩ ∧
    (DecompressDepthBuffer lzfse_decode_buffer cfg self compressedDepthBuffer
        compressedDepthBufferSize destinationBuffer destination).destination
      = writeAt destination 0
          (lzfse_decode_buffer ⟨destinationBuffer, cfg.depthBufferSize_, compressedDepthBuffer,
            compressedDepthBufferSize, self.lzfseScratchBuffer_⟩).written := by
  unfold DecompressDepthBuffer
  by_cases hsz : (lzfse_decode_buffer ⟨destinationBuffer, cfg.depthBufferSize_,
      compressedDepthBuffer, compressedDepthBufferSize, self.lzfseScratchBuffer_⟩).outSize
      = cfg.depthBufferSize_
  · simp [hsz]
  · simp [hsz]

/-- Claim C5 fails on the code: the runloop drops the result of
`DecompressDepthBuffer`. Here the native primitive stores one byte and returns 0,
so `DecompressDepthBuffer` returns `nullptr`, and the runloop still calls
`onNewFrame` with the partly overwritten depth buffer and goes on to the next
envelope read; the session ends only because the stream does. -/
theorem frame_forwarded_after_depth_failure :
    (DecompressDepthBuffer (Demo.failingDepth 3).lzfse_decode_buffer Demo.config Demo.session
      [2, 2] 2 Demo.session.depthImageData Demo.session.depthImageBuffer_).ret = none ∧
    (StreamProcessingRunloop (Demo.failingDepth 3) Demo.config 5 100 Demo.session
      (Demo.envelope16 ++ Demo.body16)).map (fun r => r.events) =
      some [Event.envelopeRead 16, Event.bodyRead 16 16, Event.rgbDecode 12 2,
        Event.depthDecode 14 2 false,
        Event.newFrame [1, 2, 3] [9, 0, 0, 0, 0, 0, 0, 0, 0, 0, 0, 0, 0, 0, 0, 0] [7, 7, 7, 7],
        Event.envelopeRead 0, Event.streamStopped] := by
  decide

/-- Claim C10 fails on the code: the body read asks for the decoded `body_size`
without comparing it with the capacity of the raw buffer. Whenever a complete
message announces and delivers more bytes than the buffer holds, the runloop
asks `ReceiveWholeBuffer` for all of them and a `usbmuxd_recv` call stores bytes
past the end of the buffer: the body read has overrun the buffer, and the
behaviour of the pass is undefined from there. -/
theorem body_read_overruns_rawMessageBuffer {σ : Type} (E : Externals σ) (cfg : Config)
    (rfuel : Nat) (st : LoopState σ) (s1 s2 : σ) (envelope body : List Byte)
    (hrfuel : 2 ^ 32 ≤ rfuel)
    (hraw : st.rawMessageBuffer.length = cfg.depthBufferSize_ * 2)
    (henv : envelope.length = sizeofPeerTalkHeader)
    (hsize : body.length = messageBodySize cfg envelope)
    (hd1 : Delivers E.transport st.self.socketHandle_ st.transport envelope s1)
    (hd2 : Delivers E.transport st.self.socketHandle_ s1 body s2)
    (hbig : cfg.depthBufferSize_ * 2 < messageBodySize cfg envelope) :
    (∃ out, ReceiveWholeBuffer E.transport rfuel s1 st.self.socketHandle_ st.rawMessageBuffer
        (messageBodySize cfg envelope) = some out ∧
      out.ret = messageBodySize cfg envelope ∧
      ∃ c ∈ out.calls, c.ret = 0 ∧ ¬ c.landsInside (cfg.depthBufferSize_ * 2)) ∧
    (∃ flow st1, runloopBody E cfg rfuel st = some (flow, st1) ∧
      Event.bodyRead (messageBodySize cfg envelope) (messageBodySize cfg envelope) ∈ st1.events ∧
      st1.rawMessageBuffer = body ∧
      cfg.depthBufferSize_ * 2 < st1.rawMessageBuffer.length ∧
      flow = Flow.fault) := by
  have hb : body.length < 2 ^ 32 := by rw [hsize]; exact messageBodySize_lt _ _
  constructor
  · obtain ⟨cs, h1, _, h2⟩ := receive_delivers E st.self.socketHandle_ hd2 hb rfuel hrfuel
      st.rawMessageBuffer
    obtain ⟨c, hc, hc0, hcl⟩ := h2 (by omega)
    rw [hsize] at h1
    refine ⟨_, h1, rfl, c, hc, hc0, ?_⟩
    unfold RecvCall.landsInside
    omega
  · have hrun := runloopBody_overrun E cfg rfuel hrfuel st henv hsize (by omega) hd1 hd2
    have hw : writeAt st.rawMessageBuffer 0 body = body :=
      writeAt_zero_full _ _ (by omega)
    refine ⟨_, _, hrun, ?_, ?_, ?_, rfl⟩
    · rw [← hsize]; simp
    · exact hw
    · simp only; rw [hw]; omega

/-- Witness of the C10 theorem: a build whose raw buffer has 8 bytes receives a
message with a 16-byte body. -/
theorem body_read_overruns_rawMessageBuffer_witness :
    Demo.tinyConfig.depthBufferSize_ * 2 < messageBodySize Demo.tinyConfig Demo.envelope16 ∧
    ∃ out, ReceiveWholeBuffer (Demo.workingDepth 64).transport (2 ^ 32)
        Demo.body16 Demo.session.socketHandle_ (List.replicate 8 0)
        (messageBodySize Demo.tinyConfig Demo.envelope16) = some out ∧
      out.ret = messageBodySize Demo.tinyConfig Demo.envelope16 ∧
      ∃ c ∈ out.calls, c.ret = 0 ∧ ¬ c.landsInside (Demo.tinyConfig.depthBufferSize_ * 2) :=
  ⟨by decide,
   (body_read_overruns_rawMessageBuffer (Demo.workingDepth 64) Demo.tinyConfig (2 ^ 32)
      ⟨Demo.session, Demo.envelope16 ++ Demo.body16, List.replicate 8 0, []⟩
      Demo.body16 [] Demo.envelope16 Demo.body16 (Nat.le_refl _) rfl rfl (by decide)
      (Delivers.chunk _ _ Demo.envelope16 [] (by decide) (by decide) (by decide)
        (Delivers.done Demo.body16))
      (Delivers.chunk _ _ Demo.body16 [] (by decide) (by decide) (by decide)
        (Delivers.done []))
      (by decide)).1⟩

end Record3D
